import Mathlib

/-!
# NoisyFunMin: bracket search, Brent line search, line minimisation, convergence detector

A shallow embedding of `src/src/LineSearch.cpp` (`findBracket`, `brentMin`,
`multiLineMin`) and of `Adam::isNotConverged` and `Adam::findMin`
(`src/src/Adam.cpp`).

Conventions of the embedding.

* `double` is idealised as `ℚ` (exact arithmetic, no NaN, no infinities, no
  rounding); `std::sqrt`, which has no exact value in `ℚ`, is a parameter
  `sqrt : ℚ → ℚ` of `Adam::findMin`, and concrete runs use `Rat.sqrt` on
  perfect squares, where it is exact.
* `int` is embedded as `Int`; the only counter of the code (`iter` of
  `findBracket`) never exceeds `maxNIter + 2`, which is part of what is proved.
* A noisy objective is a state-passing function: every evaluation consumes a
  state `σ` (the noise source) and returns the sample and the next state.
* `throw std::invalid_argument` is `Except.error`; a `while` loop takes a fuel
  argument and answers `none` when the fuel is exhausted.
* Logging (`writeBracketToLog`) has no effect on control flow and is omitted.
-/

namespace nfm

/-! ## Noisy values (header `nfm/NoisyValue.hpp`, not part of the sources) -/

/-- Modelled from the spec: the header `nfm/NoisyValue.hpp` is missing; a noisy
value is a measured scalar `val` and its standard error `err` (§3). -/
structure NoisyValue where
  val : ℚ
  err : ℚ
deriving DecidableEq, Repr

namespace NoisyValue

/-- Modelled from the spec: `lowerBound(a) = lo(a) = a.val - a.err` (§4.1);
`getLBound` of the missing header `nfm/NoisyValue.hpp`. -/
def getLBound (a : NoisyValue) : ℚ := a.val - a.err

/-- Modelled from the spec: `upperBound(a) = hi(a) = a.val + a.err` (§4.1);
`getUBound` of the missing header `nfm/NoisyValue.hpp`. -/
def getUBound (a : NoisyValue) : ℚ := a.val + a.err

/-- Modelled from the spec: `operator==` of the missing header
`nfm/NoisyValue.hpp`; `a == b` iff the intervals overlap,
`lo(a) ≤ hi(b) ∧ lo(b) ≤ hi(a)` (§4.1). -/
def eq (a b : NoisyValue) : Bool :=
  decide (a.getLBound ≤ b.getUBound) && decide (b.getLBound ≤ a.getUBound)

/-- Modelled from the spec: `operator>` of the missing header
`nfm/NoisyValue.hpp`; `a > b` iff not `a == b` and `a.val > b.val` (§4.1). -/
def gt (a b : NoisyValue) : Bool := !(a.eq b) && decide (a.val > b.val)

/-- Modelled from the spec: `operator<` of the missing header
`nfm/NoisyValue.hpp`; symmetric to `>`: not `a == b` and `a.val < b.val`
(§4.1). -/
def lt (a b : NoisyValue) : Bool := !(a.eq b) && decide (a.val < b.val)

/-- Modelled from the spec: `operator<=` of the missing header
`nfm/NoisyValue.hpp`; `a <= b` iff `a` is not distinguishably greater than `b`
(§4.4: a point is accepted iff its value is not distinguishably worse). -/
def le (a b : NoisyValue) : Bool := !(a.gt b)

/-- Modelled from the spec: `minDist` of the missing header
`nfm/NoisyValue.hpp`; `0` if the intervals overlap, else the gap between the
nearer bounds, `lo(a) - hi(b)` or `lo(b) - hi(a)`, whichever is positive
(§4.1). -/
def minDist (a b : NoisyValue) : ℚ :=
  if a.eq b then 0
  else if a.getLBound - b.getUBound > 0 then a.getLBound - b.getUBound
  else b.getLBound - a.getUBound

end NoisyValue

/-! ## Data model -/

/-- A 1-D evaluated point (`NoisyIOPair1D`, used as `{x, f}` in
`LineSearch.cpp`). -/
structure NoisyIOPair1D where
  x : ℚ
  f : NoisyValue
deriving DecidableEq, Repr

/-- Three 1-D points (`NoisyBracket`, used as `{a, b, c}` in
`LineSearch.cpp`). -/
structure NoisyBracket where
  a : NoisyIOPair1D
  b : NoisyIOPair1D
  c : NoisyIOPair1D
deriving DecidableEq, Repr

/-- An evaluated n-dimensional point (`struct NoisyIOPair`,
`include/nfm/NoisyFunction.hpp`). -/
structure NoisyIOPair where
  x : List ℚ
  f : NoisyValue
deriving DecidableEq, Repr

/-- A noisy objective (`class NoisyFunction`, `include/nfm/NoisyFunction.hpp`):
its dimension `_ndim` and the virtual `f`, which here also threads the state
`σ` of the noise source. -/
structure NoisyFunction (σ : Type) where
  ndim : Int
  f : σ → List ℚ → NoisyValue × σ

/-- The shortcut lambda `F` of `findBracket` and `brentMin`:
`xvec[0] = x; return f1d(xvec);`. -/
def evalF {σ : Type} (f1d : NoisyFunction σ) (s : σ) (x : ℚ) : NoisyValue × σ :=
  f1d.f s [x]

deriving instance DecidableEq for Except

/-! ## Internal functions of `LineSearch.cpp` -/

/-- `checkBracketXTol` (`LineSearch.cpp:16`). -/
def checkBracketXTol (bracket : NoisyBracket) (epsx : ℚ) : Bool :=
  decide (|bracket.c.x - bracket.b.x| > epsx) && decide (|bracket.b.x - bracket.a.x| > epsx)

/-- `checkBracketFTol` (`LineSearch.cpp:23`). -/
def checkBracketFTol (bracket : NoisyBracket) (epsf : ℚ) : Bool :=
  let checkLeft := decide (bracket.a.f.minDist bracket.b.f > epsf)
  let checkRight := decide (bracket.c.f.minDist bracket.b.f > epsf)
  checkLeft && checkRight

/-- `hasEquals` (`LineSearch.cpp:31`). -/
def hasEquals (bracket : NoisyBracket) : Bool :=
  bracket.a.f.eq bracket.b.f || bracket.b.f.eq bracket.c.f

/-- `isBracketed` (`LineSearch.cpp:37`). -/
def isBracketed (bracket : NoisyBracket) : Bool :=
  bracket.a.f.gt bracket.b.f && bracket.b.f.lt bracket.c.f

/-- `validateBracketX` (`LineSearch.cpp:45`). -/
def validateBracketX (ax bx cx : ℚ) (callerName : String) : Except String Unit :=
  if ax ≥ cx then
    .error ("[" ++ callerName ++ "->validateBracketX] Bracket violates (a.x < c.x).")
  else if bx ≥ cx ∨ bx ≤ ax then
    .error ("[" ++ callerName ++ "->validateBracketX] Bracket violates (a.x < b.x < c.x).")
  else .ok ()

/-- `validateBracket` (`LineSearch.cpp:56`). -/
def validateBracket (bracket : NoisyBracket) (callerName : String) : Except String Unit :=
  match validateBracketX bracket.a.x bracket.b.x bracket.c.x callerName with
  | .error e => .error e
  | .ok () =>
    if !isBracketed bracket then
      .error ("[" ++ callerName ++ "->validateBracket] Bracket violates (a.f > b.f < c.f).")
    else .ok ()

/-- `sortedBracket` (`LineSearch.cpp:73`). -/
def sortedBracket (bracket : NoisyBracket) : NoisyBracket :=
  if bracket.a.x > bracket.c.x then { bracket with a := bracket.c, c := bracket.a } else bracket

/-! ## `findBracket` -/

/-- How a loop of `findBracket` ends: with a `return`, or by its `while`
condition turning false. -/
inductive LoopExit where
  | ret (flag : Bool)
  | done
deriving DecidableEq, Repr

/-- The pre-processing loop of `findBracket` (`LineSearch.cpp:130-145`), with
the shared counter `iter`. `IGOLD2` is the constant of the missing header
`nfm/LineSearch.hpp`. -/
def widenLoop {σ : Type} (IGOLD2 : ℚ) (f1d : NoisyFunction σ) (maxNIter : Int) (epsx : ℚ) :
    Nat → NoisyBracket → Int → σ → Option (LoopExit × NoisyBracket × Int × σ)
  | 0, _, _, _ => none
  | fuel + 1, bracket, iter, s =>
    if hasEquals bracket then
      if !checkBracketXTol bracket epsx then some (.ret false, bracket, iter, s)
      else if isBracketed bracket then some (.ret true, bracket, iter, s)
      else if iter > maxNIter then some (.ret false, bracket, iter + 1, s)
      else
        let b := bracket.c
        let cx := bracket.a.x + (b.x - bracket.a.x) / IGOLD2
        let r := evalF f1d s cx
        widenLoop IGOLD2 f1d maxNIter epsx fuel
          { a := bracket.a, b := b, c := { x := cx, f := r.1 } } (iter + 1) r.2
    else some (.done, bracket, iter, s)

/-- The main loop of `findBracket` (`LineSearch.cpp:148-171`). -/
def mainLoop {σ : Type} (IGOLD2 : ℚ) (f1d : NoisyFunction σ) (maxNIter : Int) (epsx : ℚ) :
    Nat → NoisyBracket → Int → σ → Option (LoopExit × NoisyBracket × Int × σ)
  | 0, _, _, _ => none
  | fuel + 1, bracket, iter, s =>
    if !hasEquals bracket then
      if !checkBracketXTol bracket epsx then some (.ret false, bracket, iter, s)
      else if isBracketed bracket then some (.ret true, bracket, iter, s)
      else if iter > maxNIter then some (.ret false, bracket, iter + 1, s)
      else if bracket.b.f.lt bracket.a.f then
        let cx := (bracket.c.x - bracket.b.x) / IGOLD2 + bracket.b.x
        let r := evalF f1d s cx
        mainLoop IGOLD2 f1d maxNIter epsx fuel
          { a := bracket.b, b := bracket.c, c := { x := cx, f := r.1 } } (iter + 1) r.2
      else
        let c := bracket.b
        let bx := (c.x - bracket.a.x) * IGOLD2 + bracket.a.x
        let r := evalF f1d s bx
        mainLoop IGOLD2 f1d maxNIter epsx fuel
          { a := bracket.a, b := { x := bx, f := r.1 }, c := c } (iter + 1) r.2
    else some (.done, bracket, iter, s)

/-- The result of a terminated call of `findBracket`: the returned flag, the
in/out bracket, the final value of `iter` and the state of the objective. -/
structure FindBracketResult (σ : Type) where
  flag : Bool
  bracket : NoisyBracket
  iter : Int
  state : σ
deriving DecidableEq, Repr

/-- `nfm::findBracket` (`LineSearch.cpp:97`). `none`: out of fuel;
`some (.error _)`: `std::invalid_argument` was thrown. -/
def findBracket {σ : Type} (IGOLD2 : ℚ) (f1d : NoisyFunction σ) (bracket : NoisyBracket)
    (maxNIter : Int) (epsx : ℚ) (s : σ) (fuel : Nat) :
    Option (Except String (FindBracketResult σ)) :=
  if f1d.ndim ≠ 1 then
    some (.error "[nfm::findBracket] The NoisyFunction is not 1D.")
  else
    let bracket := sortedBracket bracket
    match validateBracketX bracket.a.x bracket.b.x bracket.c.x "nfm::findBracket" with
    | .error e => some (.error e)
    | .ok () =>
      let epsx := max 0 epsx
      match widenLoop IGOLD2 f1d maxNIter epsx fuel bracket 0 s with
      | none => none
      | some (.ret flag, br, iter, s1) => some (.ok ⟨flag, br, iter, s1⟩)
      | some (.done, br, iter, s1) =>
        match mainLoop IGOLD2 f1d maxNIter epsx fuel br iter s1 with
        | none => none
        | some (.ret flag, br2, iter2, s2) => some (.ok ⟨flag, br2, iter2, s2⟩)
        | some (.done, br2, iter2, s2) => some (.ok ⟨false, br2, iter2, s2⟩)

/-! ## `brentMin` -/

/-- The variables of `brentMin` that live across iterations of its loop: the
reused bracket (`lb = bracket.a`, `m = bracket.b`, `ub = bracket.c`), the
steps `d`, `e` and the points `v`, `w`. -/
structure BrentState where
  bracket : NoisyBracket
  d : ℚ
  e : ℚ
  v : NoisyIOPair1D
  w : NoisyIOPair1D
deriving DecidableEq, Repr

/-- The parabola fit of one iteration of the Brent loop
(`LineSearch.cpp:225-247`): the values of `p`, `q`, `r` and `e` after the
first `if`. -/
def brentFit (st : BrentState) (tol : ℚ) : ℚ × ℚ × ℚ × ℚ :=
  let m := st.bracket.b
  if |st.e| > tol then
    let r := (m.x - st.w.x) * (m.f.val - st.v.f.val)
    let q := (m.x - st.v.x) * (m.f.val - st.w.f.val)
    let p := (m.x - st.v.x) * q - (m.x - st.w.x) * r
    let q := 2 * (q - r)
    if q > 0 then (-p, q, st.e, st.d) else (p, -q, st.e, st.d)
  else (0, 0, 0, st.e)

/-- The choice of the step of one iteration of the Brent loop
(`LineSearch.cpp:217-271`): the new `d`, the new `e` and the trial position
`u.x`. -/
def brentTrial (IGOLD2 : ℚ) (st : BrentState) : ℚ × ℚ × ℚ :=
  let lb := st.bracket.a
  let m := st.bracket.b
  let ub := st.bracket.c
  let mtolb := m.x - lb.x
  let mtoub := ub.x - m.x
  let xm := (1 / 2) * (lb.x + ub.x)
  let tol := (3 / 200000000) * |m.x|
  let fit := brentFit st tol
  let p := fit.1
  let q := fit.2.1
  let r := fit.2.2.1
  let e := fit.2.2.2
  let de : ℚ × ℚ :=
    if |p| < |(1 / 2) * q * r| ∧ p < q * mtolb ∧ p < q * mtoub then
      let t2 := 2 * tol
      let d := p / q
      let ux := m.x + d
      if ux - lb.x < t2 ∨ ub.x - ux < t2 then
        (if m.x < xm then tol else -tol, e)
      else (d, e)
    else
      let e := if m.x < xm then ub.x - m.x else -(m.x - lb.x)
      (IGOLD2 * e, e)
  let d := de.1
  let ux := if |d| ≥ tol then m.x + d else m.x + (if d > 0 then tol else -tol)
  (d, de.2, ux)

/-- The update of the bracket and of `v`, `w` at the end of one iteration of
the Brent loop (`LineSearch.cpp:276-296`), for the evaluated trial point
`u`. -/
def brentUpdate (st : BrentState) (d e : ℚ) (u : NoisyIOPair1D) : BrentState :=
  let lb := st.bracket.a
  let m := st.bracket.b
  let ub := st.bracket.c
  if u.f.getUBound ≤ m.f.getUBound then
    let br : NoisyBracket :=
      if u.x < m.x then { a := lb, b := u, c := m } else { a := m, b := u, c := ub }
    { bracket := br, d := d, e := e, v := st.w, w := m }
  else
    let br : NoisyBracket :=
      if u.x < m.x then { a := u, b := m, c := ub } else { a := lb, b := m, c := u }
    if u.f.le st.w.f ∨ st.w.x = m.x then
      { bracket := br, d := d, e := e, v := st.w, w := u }
    else if u.f.le st.v.f ∨ st.v.x = m.x ∨ st.v.x = st.w.x then
      { bracket := br, d := d, e := e, v := u, w := st.w }
    else { bracket := br, d := d, e := e, v := st.v, w := st.w }

/-- One iteration of the Brent loop after its two `break` tests
(`LineSearch.cpp:217-296`). -/
def brentStep {σ : Type} (IGOLD2 : ℚ) (f1d : NoisyFunction σ) (st : BrentState) (s : σ) :
    BrentState × σ :=
  let t := brentTrial IGOLD2 st
  let r := evalF f1d s t.2.2
  (brentUpdate st t.1 t.2.1 { x := t.2.2, f := r.1 }, r.2)

/-- The main Brent loop `for (int it = 0; it < maxNIter; ++it)`
(`LineSearch.cpp:213-299`); the first argument is the number of iterations
left, `maxNIter - it`. -/
def brentLoop {σ : Type} (IGOLD2 : ℚ) (f1d : NoisyFunction σ) (epsx epsf : ℚ) :
    Nat → BrentState → σ → BrentState × σ
  | 0, st, s => (st, s)
  | n + 1, st, s =>
    if !checkBracketXTol st.bracket epsx then (st, s)
    else if !checkBracketFTol st.bracket epsf then (st, s)
    else
      let r := brentStep IGOLD2 f1d st s
      brentLoop IGOLD2 f1d epsx epsf n r.1 r.2

/-- The initialisation of `brentMin` (`LineSearch.cpp:206-210`). -/
def brentInit {σ : Type} (IGOLD2 : ℚ) (f1d : NoisyFunction σ) (bracket : NoisyBracket)
    (s : σ) : BrentState × σ :=
  let vx := bracket.a.x + IGOLD2 * (bracket.c.x - bracket.a.x)
  let r := evalF f1d s vx
  ({ bracket := bracket, d := 0, e := 0, v := { x := vx, f := r.1 }, w := { x := vx, f := r.1 } },
    r.2)

/-- The end of `brentMin` (`LineSearch.cpp:305-306`), for the state `l` in
which the loop ended: `m.f = F(m.x); return m;`. -/
def brentFinish {σ : Type} (f1d : NoisyFunction σ) (l : BrentState × σ) : NoisyIOPair1D × σ :=
  let m := l.1.bracket.b
  let r := evalF f1d l.2 m.x
  ({ x := m.x, f := r.1 }, r.2)

/-- `nfm::brentMin` (`LineSearch.cpp:175`). -/
def brentMin {σ : Type} (IGOLD2 : ℚ) (f1d : NoisyFunction σ) (bracket : NoisyBracket)
    (maxNIter : Int) (epsx epsf : ℚ) (s : σ) : Except String (NoisyIOPair1D × σ) :=
  if f1d.ndim ≠ 1 then
    .error "[nfm::brentMin] The NoisyFunction is not 1D."
  else
    match validateBracket bracket "nfm::brentMin" with
    | .error e => .error e
    | .ok () =>
      let epsx := max 0 epsx
      let epsf := max 0 epsf
      let i := brentInit IGOLD2 f1d bracket s
      .ok (brentFinish f1d (brentLoop IGOLD2 f1d epsx epsf maxNIter.toNat i.1 i.2))

/-! ## `multiLineMin` -/

/-- The parameters of `multiLineMin` (`MLMParams`, declared in the missing
header `nfm/LineSearch.hpp`), with the fields `multiLineMin` reads. -/
structure MLMParams where
  stepLeft : ℚ
  stepRight : ℚ
  maxNBracket : Int
  maxNMinimize : Int
  epsx : ℚ
  epsf : ℚ
deriving DecidableEq, Repr

/-- Modelled from the spec: `FunProjection1D::getVecFromX` of the missing
header; the projection maps a scalar step `t` to the point
`base + t·direction` (§4.4). -/
def getVecFromX (p0 dir : List ℚ) (t : ℚ) : List ℚ :=
  List.zipWith (fun p d => p + t * d) p0 dir

/-- Modelled from the spec: `FunProjection1D` of the missing header, the 1-D
objective that maps a step `t` to the n-dimensional objective evaluated at
`base + t·direction` (§4.4). -/
def FunProjection1D {σ : Type} (mdf : NoisyFunction σ) (p0 dir : List ℚ) : NoisyFunction σ where
  ndim := 1
  f := fun s xs => mdf.f s (getVecFromX p0 dir (xs.headD 0))

/-- The effective tolerances of `multiLineMin` (`LineSearch.cpp:321-322`):
`(eps > 0) ? eps : STD`. -/
def mlmEps (eps STD_TOL : ℚ) : ℚ := if eps > 0 then eps else STD_TOL

/-- The initial bracket of `multiLineMin` (`LineSearch.cpp:328-333`) and the
state of the objective after the evaluations that build it (`a`, `b`, `c` in
the order of the initialiser list; no evaluation for `a` when `ax` is zero). -/
def mlmBracket {σ : Type} (IGOLD2 : ℚ) (mdf : NoisyFunction σ) (p0Pair : NoisyIOPair)
    (dir : List ℚ) (params : MLMParams) (s : σ) : NoisyBracket × σ :=
  let proj1d := FunProjection1D mdf p0Pair.x dir
  let ax := -params.stepLeft
  let cx := params.stepRight
  let bx := ax + (cx - ax) * IGOLD2
  let ra := if |ax| = 0 then (p0Pair.f, s) else evalF proj1d s ax
  let rb := evalF proj1d ra.2 bx
  let rc := evalF proj1d rb.2 cx
  ({ a := { x := ax, f := ra.1 }, b := { x := bx, f := rb.1 }, c := { x := cx, f := rc.1 } },
    rc.2)

/-- The last two lines of `multiLineMin` (`LineSearch.cpp:347-348`):
`p0Pair.f = mdf(p0Pair.x); return p0Pair;`. -/
def mlmOldPosition {σ : Type} (mdf : NoisyFunction σ) (p0Pair : NoisyIOPair) (s : σ) :
    NoisyIOPair × σ :=
  let r := mdf.f s p0Pair.x
  ({ x := p0Pair.x, f := r.1 }, r.2)

/-- `nfm::multiLineMin` (`LineSearch.cpp:310`). `STD_XTOL` and `STD_FTOL` are
constants of the missing header; `fuel` is handed to `findBracket`. -/
def multiLineMin {σ : Type} (IGOLD2 STD_XTOL STD_FTOL : ℚ) (mdf : NoisyFunction σ)
    (p0Pair : NoisyIOPair) (dir : List ℚ) (params : MLMParams) (s : σ) (fuel : Nat) :
    Option (Except String (NoisyIOPair × σ)) :=
  if mdf.ndim ≠ (p0Pair.x.length : Int) ∨ p0Pair.x.length ≠ dir.length then
    some (.error
      "[nfm::multiLineMin] The passed function and positions are inconsistent in size.")
  else if params.stepLeft < 0 ∨ params.stepRight ≤ 0 then
    some (.error
      "[nfm::multiLineMin] stepLeft and stepRight must be non-negative (stepRight strictly positive).")
  else
    let epsx := mlmEps params.epsx STD_XTOL
    let epsf := mlmEps params.epsf STD_FTOL
    let proj1d := FunProjection1D mdf p0Pair.x dir
    let b0 := mlmBracket IGOLD2 mdf p0Pair dir params s
    match findBracket IGOLD2 proj1d b0.1 params.maxNBracket epsx b0.2 fuel with
    | none => none
    | some (.error e) => some (.error e)
    | some (.ok fb) =>
      if fb.flag then
        match brentMin IGOLD2 proj1d fb.bracket params.maxNMinimize epsx epsf fb.state with
        | .error e => some (.error e)
        | .ok (min1D, s2) =>
          if min1D.f.le p0Pair.f then
            some (.ok ({ x := getVecFromX p0Pair.x dir min1D.x, f := min1D.f }, s2))
          else some (.ok (mlmOldPosition mdf p0Pair s2))
      else some (.ok (mlmOldPosition mdf p0Pair fb.state))

end nfm

/-! ## The convergence detector (`Adam::isNotConverged`, `src/src/Adam.cpp`) -/

namespace Adam

open nfm

/-- The loop of `isNotConverged` (`Adam.cpp:133-139`) over the entries after
`begin()` (the entry `begin()` itself is skipped by `it != begin()`): `true`
iff the loop leaves the function with `return true`. -/
def differsFromFirst (first : NoisyValue) : List NoisyValue → Bool
  | [] => false
  | v :: rest => if !(v.eq first) then true else differsFromFirst first rest

/-- The list `_old_values` after the first two statements of `isNotConverged`
(`Adam.cpp:124-129`): `push_front` of the current value, then `pop_back` if the
size exceeds `N`. -/
def windowAfter (N : Nat) (old_values : List NoisyValue) (x : NoisyValue) : List NoisyValue :=
  let pushed := x :: old_values
  if pushed.length > N then pushed.dropLast else pushed

/-- `Adam::isNotConverged` (`Adam.cpp:119`). `N` is
`N_CONSTANT_VALUES_CONDITION_FOR_STOP`, `old_values` the list `_old_values`
(front first) and `x` the current value `*_x`; `operator==` of the missing
`NoisyFunctionValue` is the noisy equality of the spec. Returns the flag and
the new `_old_values`. -/
def isNotConverged (N : Nat) (old_values : List NoisyValue) (x : NoisyValue) :
    Bool × List NoisyValue :=
  let window := windowAfter N old_values x
  if window.length = N then
    match window with
    | [] => if window.length < N then (true, window) else (false, window)
    | first :: rest =>
      if differsFromFirst first rest then (true, window)
      else if window.length < N then (true, window)
      else (false, window)
  else (true, window)

/-- The detector fed with a sequence of values, oldest first, starting from the
window `old_values`: the flag of the last call (`true` before any call) and the
final window. -/
def feed (N : Nat) : List NoisyValue → List NoisyValue → Bool × List NoisyValue
  | old_values, [] => (true, old_values)
  | old_values, [x] => isNotConverged N old_values x
  | old_values, x :: y :: rest => feed N (isNotConverged N old_values x).2 (y :: rest)

/-! ### `Adam::findMin` -/

/-- The objective of `Adam::findMin`, in the interface its calls use
(`_gradtargetfun->f(x, f, df)` and `_gradtargetfun->grad(x, grad, graderr)`;
the class is declared in a header that is not part of the sources): the noisy
value and the gradient, each threading the state `σ` of the noise source. The
gradient error `graderr` is never read by `findMin` and is left out. -/
structure GradientFunction (σ : Type) where
  ndim : Nat
  f : σ → List ℚ → NoisyValue × σ
  grad : σ → List ℚ → List ℚ × σ

/-- The configuration of an `Adam` minimizer (`include/nfm/Adam.hpp:13-20`):
the fields set by the constructor, with `N` the capacity
`max_n_const_values` handed to the base class. -/
structure AdamParams where
  useAveraging : Bool
  alpha : ℚ
  beta1 : ℚ
  beta2 : ℚ
  epsilon : ℚ
  N : Nat
deriving DecidableEq, Repr

/-- The variables of `findMin` that live across iterations of its loop: the
position and value kept in `_x`, the moment vectors `m` and `v`, the window
`_old_values`, the counter `step` and the state of the objective. -/
structure AdamState (σ : Type) where
  x : List ℚ
  fx : NoisyValue
  m : List ℚ
  v : List ℚ
  old_values : List NoisyValue
  step : Int
  s : σ
deriving DecidableEq, Repr

/-- The helping factor `afac` of `findMin` (`Adam.cpp:72`):
`_alpha * sqrt(1-_beta2)/(1-_beta1)`. The square root has no exact value in
`ℚ`; it is the parameter `sqrt` of the embedding. -/
def afac (sqrt : ℚ → ℚ) (p : AdamParams) : ℚ :=
  p.alpha * sqrt (1 - p.beta2) / (1 - p.beta1)

/-- The update of one iteration of `findMin` (`Adam.cpp:92-97`), for the
gradient `grad`: the new `m`, the new `v` and the new position. -/
def adamUpdate (sqrt : ℚ → ℚ) (p : AdamParams) (m v x grad : List ℚ) :
    List ℚ × List ℚ × List ℚ :=
  let m2 := List.zipWith (fun mi gi => p.beta1 * mi + (1 - p.beta1) * gi) m grad
  let v2 := List.zipWith (fun vi gi => p.beta2 * vi + (1 - p.beta2) * gi * gi) v grad
  let x2 := List.zipWith (fun xi mv => xi - afac sqrt p * mv.1 / (sqrt mv.2 + p.epsilon)) x
    (List.zip m2 v2)
  (m2, v2, x2)

/-- The minimization loop of `findMin` (`Adam.cpp:85-107`):
`while (isNotConverged()) { gradient; update; new value; step++ }`. -/
def findMinLoop {σ : Type} (sqrt : ℚ → ℚ) (p : AdamParams) (gf : GradientFunction σ) :
    Nat → AdamState σ → Option (AdamState σ)
  | 0, _ => none
  | fuel + 1, st =>
    let c := isNotConverged p.N st.old_values st.fx
    if c.1 then
      let g := gf.grad st.s st.x
      let u := adamUpdate sqrt p st.m st.v st.x g.1
      let r := gf.f g.2 u.2.2
      findMinLoop sqrt p gf fuel
        { x := u.2.2, fx := r.1, m := u.1, v := u.2.1, old_values := c.2, step := st.step + 1,
          s := r.2 }
    else some { st with old_values := c.2 }

/-- `Adam::findMin` (`Adam.cpp:59`) for a minimizer whose position was set to
`x0` and whose window is still empty: the state in which the loop ends, its `x`
being the position the minimizer reports. `none`: out of fuel. -/
def findMin {σ : Type} (sqrt : ℚ → ℚ) (p : AdamParams) (gf : GradientFunction σ)
    (x0 : List ℚ) (s : σ) (fuel : Nat) : Option (AdamState σ) :=
  let r := gf.f s x0
  findMinLoop sqrt p gf fuel
    { x := x0, fx := r.1, m := List.replicate gf.ndim 0, v := List.replicate gf.ndim 0,
      old_values := [], step := 0, s := r.2 }

/-- The update the Adam method prescribes at iteration `t`, in the form of
claim C22: `x_i - alpha * sqrt(1 - beta2^t) / (1 - beta1^t) * m_i /
(sqrt(v_i) + epsilon)`, with `m_i`, `v_i` the moving averages after including
the gradient of iteration `t`. -/
def biasCorrectedUpdate (sqrt : ℚ → ℚ) (p : AdamParams) (t : Nat) (m v x grad : List ℚ) :
    List ℚ × List ℚ × List ℚ :=
  let m2 := List.zipWith (fun mi gi => p.beta1 * mi + (1 - p.beta1) * gi) m grad
  let v2 := List.zipWith (fun vi gi => p.beta2 * vi + (1 - p.beta2) * gi * gi) v grad
  let x2 := List.zipWith
    (fun xi mv => xi - p.alpha * sqrt (1 - p.beta2 ^ t) / (1 - p.beta1 ^ t) * mv.1
      / (sqrt mv.2 + p.epsilon)) x (List.zip m2 v2)
  (m2, v2, x2)

/-- A linear objective in one dimension with a large error: the value `x`
with error `100`, the gradient `1`. -/
def slope : GradientFunction Unit where
  ndim := 1
  f := fun s xs => ({ val := xs.headD 0, err := 100 }, s)
  grad := fun s _ => ([1], s)

/-- Parameters for the concrete runs: `alpha = 1`, `beta1 = 1/2`, `beta2 = 0`,
`epsilon = 1`, window capacity `3`. -/
def halfParams (useAveraging : Bool) : AdamParams :=
  { useAveraging := useAveraging, alpha := 1, beta1 := 1 / 2, beta2 := 0, epsilon := 1, N := 3 }

/-- The moments and the position after the updates of `findMin` for the
gradients `gs`, one per iteration, in order. -/
def adamRun (sqrt : ℚ → ℚ) (p : AdamParams) (mvx : List ℚ × List ℚ × List ℚ)
    (gs : List (List ℚ)) : List ℚ × List ℚ × List ℚ :=
  gs.foldl (fun acc g => adamUpdate sqrt p acc.1 acc.2.1 acc.2.2 g) mvx

end Adam

/-! ## Instrumentation and concrete objectives -/

namespace nfm

/-- The objective `f` with a counter of its evaluations added to its state. -/
def counted {σ : Type} (f : NoisyFunction σ) : NoisyFunction (σ × Nat) where
  ndim := f.ndim
  f := fun s xs => ((f.f s.1 xs).1, ((f.f s.1 xs).2, s.2 + 1))

/-- A deterministic, noise-free 1-D objective: the value `g x` with error `0`,
whatever the state. -/
def exact1D (g : ℚ → ℚ) : NoisyFunction Unit where
  ndim := 1
  f := fun s xs => ({ val := g (xs.headD 0), err := 0 }, s)

/-- The value of `IGOLD2` used in concrete runs: the inverse square of the
golden ratio, rounded to eleven decimals. -/
def igold2 : ℚ := 38196601125 / 100000000000

/-- What both loops of `findBracket` guarantee about the bracket they leave,
apart from the exit by the loop condition. -/
def LoopPost (epsx : ℚ) (ex : LoopExit) (br2 : NoisyBracket) : Prop :=
  br2.a.x < br2.b.x ∧ br2.b.x < br2.c.x ∧
  (ex = .ret true → isBracketed br2 = true) ∧
  (ex = .ret false → checkBracketXTol br2 epsx = false ∨ isBracketed br2 = false)

/-- The counter discipline of both loops of `findBracket`, for the counted
objective: the evaluations made fit in what is left of the cap, and an exit by
the loop condition has made exactly as many evaluations as `iter` moved. -/
def CountPost (maxNIter iter : Int) (n : Nat) (ex : LoopExit) (iter2 : Int) (n2 : Nat) : Prop :=
  (n2 : Int) - n ≤ maxNIter + 1 - iter ∧ n ≤ n2 ∧ iter2 ≤ maxNIter + 2 ∧
  (ex = .done → (n2 : Int) - n = iter2 - iter ∧ iter2 ≤ maxNIter + 1)

/-- A Brent state whose bracket is ordered and lies in `[a0, c0]`. -/
def BrentWithin (a0 c0 : ℚ) (st : BrentState) : Prop :=
  a0 ≤ st.bracket.a.x ∧ st.bracket.a.x ≤ st.bracket.b.x ∧ st.bracket.b.x ≤ st.bracket.c.x ∧
    st.bracket.c.x ≤ c0

/-- A deterministic objective with a ledge far from the origin: `0` at `10^9`,
`-1` beyond `10^9 + 10` and `1` elsewhere, error `0`. -/
def ledge : NoisyFunction Unit :=
  exact1D (fun x => if x = 1000000000 then 0 else if x > 1000000010 then -1 else 1)

/-- A valid bracket of `ledge` around `10^9`, narrower than the step tolerance
`1.5e-8 * 10^9 = 15` of `brentMin`. -/
def ledgeBracket : NoisyBracket :=
  { a := { x := 999999999, f := { val := 1, err := 0 } },
    b := { x := 1000000000, f := { val := 0, err := 0 } },
    c := { x := 1000000002, f := { val := 1, err := 0 } } }

/-- A constant objective in one dimension: the value `5` with error `0`. -/
def constFive : NoisyFunction Unit where
  ndim := 1
  f := fun s _ => ({ val := 5, err := 0 }, s)

/-- A noisy objective whose state counts its evaluations: the true value is
`0`, the error `1`, and the very first sample is the outlier `-10`. -/
def outlierFirst : NoisyFunction Nat where
  ndim := 1
  f := fun n _ => ({ val := if n = 0 then -10 else 0, err := 1 }, n + 1)

/-- Parameters of `multiLineMin` for the concrete runs: the steps `0` and `1`,
the caps `3` and `10`, default tolerances. -/
def unitParams : MLMParams :=
  { stepLeft := 0, stepRight := 1, maxNBracket := 3, maxNMinimize := 10, epsx := 0, epsf := 0 }

/-- What `findBracket` answers inside `multiLineMin` for `constFive` started at
`([0], 0 ± 0)` along `[1]` with `unitParams`: failure at the cap. -/
def constFiveFB : FindBracketResult Unit :=
  { flag := false,
    bracket :=
      { a := { x := 0, f := { val := 0, err := 0 } },
        b := { x := 512000000000000000000000000 / 28532782080407137301871129,
               f := { val := 5, err := 0 } },
        c := { x := 409600000000000000000000000000000000 / 8718842368894872808981441844531361,
               f := { val := 5, err := 0 } } },
    iter := 5,
    state := () }

/-- The exact parabola `x^2` of the unit test `test/ut1`. -/
def parabola : NoisyFunction Unit := exact1D (fun x => x ^ 2)

/-- The start bracket `[-1.5, 10]` of `test/ut1` with its midpoint, evaluated
on the parabola. -/
def parabolaBracket : NoisyBracket :=
  { a := { x := -3 / 2, f := { val := 9 / 4, err := 0 } },
    b := { x := 17 / 4, f := { val := 289 / 16, err := 0 } },
    c := { x := 10, f := { val := 100, err := 0 } } }

/-- What `findBracket` answers on `parabolaBracket`: success after one
contraction. -/
def parabolaResult : FindBracketResult Unit :=
  { flag := true,
    bracket :=
      { a := { x := -3 / 2, f := { val := 9 / 4, err := 0 } },
        b := { x := 2228174607 / 3200000000,
               f := { val := 4964762079279604449 / 10240000000000000000, err := 0 } },
        c := { x := 17 / 4, f := { val := 289 / 16, err := 0 } } },
    iter := 1,
    state := () }

/-- The shifted parabola `(x - 1)^2`. -/
def shiftedParabola : NoisyFunction Unit := exact1D (fun x => (x - 1) ^ 2)

/-- A bracket of the shifted parabola around its minimum: `0, 1, 2` with the
values `1, 0, 1`. -/
def unitBracket : NoisyBracket :=
  { a := { x := 0, f := { val := 1, err := 0 } },
    b := { x := 1, f := { val := 0, err := 0 } },
    c := { x := 2, f := { val := 1, err := 0 } } }

/-- A constant objective: the value `0` with error `0` everywhere. -/
def flat : NoisyFunction Unit := exact1D (fun _ => 0)

/-- The bracket `0, 1, 2` evaluated on the constant objective. -/
def flatBracket : NoisyBracket :=
  { a := { x := 0, f := { val := 0, err := 0 } },
    b := { x := 1, f := { val := 0, err := 0 } },
    c := { x := 2, f := { val := 0, err := 0 } } }

/-- What `findBracket` answers on `flatBracket` for the constant objective with
the cap `3`: failure after four widening steps. -/
def flatResult : FindBracketResult Unit :=
  { flag := false,
    bracket :=
      { a := { x := 0, f := { val := 0, err := 0 } },
        b := { x := 1024000000000000000000000000 / 28532782080407137301871129,
               f := { val := 0, err := 0 } },
        c := { x := 819200000000000000000000000000000000 / 8718842368894872808981441844531361,
               f := { val := 0, err := 0 } } },
    iter := 5,
    state := () }

/-- A deterministic 1-D objective: the sample at `x` is `G x`, whatever the
state. -/
def det (G : ℚ → NoisyValue) : NoisyFunction Unit where
  ndim := 1
  f := fun s xs => (G (xs.headD 0), s)

/-- The three values of a bracket are the values of `G` at its three
positions. -/
def Consistent (G : ℚ → NoisyValue) (br : NoisyBracket) : Prop :=
  br.a.f = G br.a.x ∧ br.b.f = G br.b.x ∧ br.c.f = G br.c.x

/-- Modelled from the spec: the test objective `Well` of the missing header
`TestNFMFunctions.hpp`; the value is `-1` inside `(-1, 1)` and `+1` outside
(§8), with the constant error `err`. -/
def wellValue (err : ℚ) (x : ℚ) : NoisyValue :=
  { val := if -1 < x ∧ x < 1 then -1 else 1, err := err }

/-- The well function as an objective. -/
def well (err : ℚ) : NoisyFunction Unit := det (wellValue err)

/-- `prepareBracket` of the unit test (`test/ut1/main.cpp:10`): the bracket
from `ax` to `cx` with the midpoint as inner point, evaluated on `fun` in the
order `a`, `b`, `c`. -/
def prepareBracket {σ : Type} (fn : NoisyFunction σ) (ax cx : ℚ) (s : σ) : NoisyBracket × σ :=
  let bx := (1 / 2) * (ax + cx)
  let ra := fn.f s [ax]
  let rb := fn.f ra.2 [bx]
  let rc := fn.f rb.2 [cx]
  ({ a := { x := ax, f := ra.1 }, b := { x := bx, f := rb.1 }, c := { x := cx, f := rc.1 } },
    rc.2)

/-- A triple with pairwise distinct positions whose inner point is not between
the outer ones: `0, 5, 1`, evaluated on the parabola. -/
def unsortedBracket : NoisyBracket :=
  { a := { x := 0, f := { val := 0, err := 0 } },
    b := { x := 5, f := { val := 25, err := 0 } },
    c := { x := 1, f := { val := 1, err := 0 } } }

/-- The coarse situation of the well function: the left point is at or left of
`-1`, the right point at or right of `1`, the inner point outside `(-1, 1)`,
and the three values are those of the well function. -/
def WellCoarse (err : ℚ) (br : NoisyBracket) : Prop :=
  br.a.x ≤ -1 ∧ (br.b.x ≤ -1 ∨ 1 ≤ br.b.x) ∧ 1 ≤ br.c.x ∧ Consistent (wellValue err) br

/-- The start bracket `[-1000, 100]` of `test/ut1` on the well function with
error `0`: too coarse to resolve the well. -/
def wellCoarseBracket : NoisyBracket := (prepareBracket (well 0) (-1000) 100 ()).1

/-- The start bracket `[-1.25, 5.5]` of `test/ut1` on the well function with
error `err`, inner point `2.125`. -/
def wellTestBracket (err : ℚ) : NoisyBracket := (prepareBracket (well err) (-5 / 4) (11 / 2) ()).1

/-- The start bracket `[-1.1, 3]` of `test/ut1` on the well function with error
`0`, inner point `0.95`. -/
def wellFineBracket : NoisyBracket := (prepareBracket (well 0) (-11 / 10) 3 ()).1

/-- A deterministic objective with a steep left and a flat right side around
its minimum at `1`: `10 (x - 1)^2` left of `1`, `(x - 1)^2` right of it,
error `0`. -/
def skewParabola : NoisyFunction Unit :=
  exact1D (fun x => if x < 1 then 10 * (x - 1) ^ 2 else (x - 1) ^ 2)

/-- The bracket `0, 1, 2` of `skewParabola`, with the values `10, 0, 1`. -/
def skewBracket : NoisyBracket :=
  { a := { x := 0, f := { val := 10, err := 0 } },
    b := { x := 1, f := { val := 0, err := 0 } },
    c := { x := 2, f := { val := 1, err := 0 } } }

end nfm


/-! ## Lemmas on noisy values and on the loops of `findBracket` -/

namespace nfm

theorem NoisyValue.eq_comm (a b : NoisyValue) : a.eq b = b.eq a := by
  simp only [NoisyValue.eq]; exact Bool.and_comm _ _

theorem NoisyValue.eq_self {a : NoisyValue} (h : 0 ≤ a.err) : a.eq a = true := by
  simp only [NoisyValue.eq, NoisyValue.getLBound, NoisyValue.getUBound, Bool.and_self,
    decide_eq_true_eq]
  linarith

theorem NoisyValue.gt_eq_lt_swap (a b : NoisyValue) : a.gt b = b.lt a := by
  simp only [NoisyValue.gt, NoisyValue.lt, NoisyValue.eq_comm a b, gt_iff_lt]

theorem isBracketed_of_hasEquals {br : NoisyBracket} (h : hasEquals br = true) :
    isBracketed br = false := by
  simp only [hasEquals, Bool.or_eq_true] at h
  simp only [isBracketed, NoisyValue.gt, NoisyValue.lt]
  rcases h with h | h <;> simp [h]

theorem scale_up_lt {IGOLD2 a c : ℚ} (h0 : 0 < IGOLD2) (h1 : IGOLD2 < 1) (h : a < c) :
    c < a + (c - a) / IGOLD2 := by
  have h2 : c - a < (c - a) / IGOLD2 := by
    rw [lt_div_iff₀ h0]
    nlinarith
  linarith

theorem widenLoop_inv {σ : Type} {IGOLD2 : ℚ} (h0 : 0 < IGOLD2) (h1 : IGOLD2 < 1)
    (f1d : NoisyFunction σ) (maxNIter : Int) (epsx : ℚ) :
    ∀ (fuel : Nat) (br : NoisyBracket) (iter : Int) (s : σ) (ex : LoopExit) (br2 : NoisyBracket)
      (iter2 : Int) (s2 : σ), br.a.x < br.b.x → br.b.x < br.c.x →
      widenLoop IGOLD2 f1d maxNIter epsx fuel br iter s = some (ex, br2, iter2, s2) →
      LoopPost epsx ex br2 := by
  intro fuel
  induction fuel with
  | zero => intro br iter s ex br2 iter2 s2 _ _ h; simp [widenLoop] at h
  | succ n ih =>
    intro br iter s ex br2 iter2 s2 hab hbc h
    simp only [widenLoop] at h
    split at h
    · split at h
      · rename_i hx
        simp only [Option.some.injEq, Prod.mk.injEq] at h
        obtain ⟨rfl, rfl, rfl, rfl⟩ := h
        simp at hx
        simp [LoopPost, hab, hbc, hx]
      · split at h
        · rename_i hx
          simp only [Option.some.injEq, Prod.mk.injEq] at h
          obtain ⟨rfl, rfl, rfl, rfl⟩ := h
          simp [LoopPost, hab, hbc, hx]
        · split at h
          · rename_i hb _
            simp only [Option.some.injEq, Prod.mk.injEq] at h
            obtain ⟨rfl, rfl, rfl, rfl⟩ := h
            simp at hb
            simp [LoopPost, hab, hbc, hb]
          · exact ih _ _ _ _ _ _ _ (by simpa using lt_trans hab hbc)
              (by simpa using scale_up_lt h0 h1 (lt_trans hab hbc)) h
    · simp only [Option.some.injEq, Prod.mk.injEq] at h
      obtain ⟨rfl, rfl, rfl, rfl⟩ := h
      simp [LoopPost, hab, hbc]

theorem mainLoop_inv {σ : Type} {IGOLD2 : ℚ} (h0 : 0 < IGOLD2) (h1 : IGOLD2 < 1)
    (f1d : NoisyFunction σ) (maxNIter : Int) (epsx : ℚ) :
    ∀ (fuel : Nat) (br : NoisyBracket) (iter : Int) (s : σ) (ex : LoopExit) (br2 : NoisyBracket)
      (iter2 : Int) (s2 : σ), br.a.x < br.b.x → br.b.x < br.c.x →
      mainLoop IGOLD2 f1d maxNIter epsx fuel br iter s = some (ex, br2, iter2, s2) →
      LoopPost epsx ex br2 ∧ (ex = .done → hasEquals br2 = true) := by
  intro fuel
  induction fuel with
  | zero => intro br iter s ex br2 iter2 s2 _ _ h; simp [mainLoop] at h
  | succ n ih =>
    intro br iter s ex br2 iter2 s2 hab hbc h
    simp only [mainLoop] at h
    split at h
    · split at h
      · rename_i hx
        simp only [Option.some.injEq, Prod.mk.injEq] at h
        obtain ⟨rfl, rfl, rfl, rfl⟩ := h
        simp at hx
        simp [LoopPost, hab, hbc, hx]
      · split at h
        · rename_i hx
          simp only [Option.some.injEq, Prod.mk.injEq] at h
          obtain ⟨rfl, rfl, rfl, rfl⟩ := h
          simp [LoopPost, hab, hbc, hx]
        · split at h
          · rename_i hb _
            simp only [Option.some.injEq, Prod.mk.injEq] at h
            obtain ⟨rfl, rfl, rfl, rfl⟩ := h
            simp at hb
            simp [LoopPost, hab, hbc, hb]
          · split at h
            · refine ih _ _ _ _ _ _ _ (by simpa using hbc) ?_ h
              have := scale_up_lt h0 h1 hbc
              simp only
              linarith
            · refine ih _ _ _ _ _ _ _ ?_ ?_ h
              · simp only
                nlinarith
              · simp only
                nlinarith
    · rename_i hx
      simp only [Option.some.injEq, Prod.mk.injEq] at h
      obtain ⟨rfl, rfl, rfl, rfl⟩ := h
      simp at hx
      simp [LoopPost, hab, hbc, hx]

theorem sortedBracket_valid {bracket : NoisyBracket} {name : String}
    (h : validateBracketX (sortedBracket bracket).a.x (sortedBracket bracket).b.x
      (sortedBracket bracket).c.x name = .ok ()) :
    (sortedBracket bracket).a.x < (sortedBracket bracket).b.x ∧
      (sortedBracket bracket).b.x < (sortedBracket bracket).c.x := by
  simp only [validateBracketX] at h
  split at h
  · simp at h
  · split at h
    · simp at h
    · rename_i h2
      push_neg at h2
      exact ⟨h2.2, h2.1⟩

/-- The bracket `findBracket` leaves when it returns: ordered, bracketing on
success, and on failure below the position tolerance or not bracketing. -/
theorem findBracket_post {σ : Type} {IGOLD2 : ℚ} (h0 : 0 < IGOLD2) (h1 : IGOLD2 < 1)
    (f1d : NoisyFunction σ) (bracket : NoisyBracket) (maxNIter : Int) (epsx : ℚ) (s : σ)
    (fuel : Nat) (r : FindBracketResult σ)
    (h : findBracket IGOLD2 f1d bracket maxNIter epsx s fuel = some (.ok r)) :
    LoopPost (max 0 epsx) (.ret r.flag) r.bracket := by
  simp only [findBracket] at h
  split at h
  · simp at h
  · split at h
    · simp at h
    · rename_i hv
      have hord := sortedBracket_valid hv
      split at h
      · simp at h
      · rename_i flag br iter s1 hw
        simp only [Option.some.injEq, Except.ok.injEq] at h
        subst h
        exact widenLoop_inv h0 h1 f1d maxNIter _ _ _ _ _ _ _ _ _ hord.1 hord.2 hw
      · rename_i br iter s1 hw
        have hp := widenLoop_inv h0 h1 f1d maxNIter _ _ _ _ _ _ _ _ _ hord.1 hord.2 hw
        split at h
        · simp at h
        · rename_i flag br2 iter2 s2 hm
          simp only [Option.some.injEq, Except.ok.injEq] at h
          subst h
          exact (mainLoop_inv h0 h1 f1d maxNIter _ _ _ _ _ _ _ _ _ hp.1 hp.2.1 hm).1
        · rename_i br2 iter2 s2 hm
          simp only [Option.some.injEq, Except.ok.injEq] at h
          subst h
          have hq := mainLoop_inv h0 h1 f1d maxNIter _ _ _ _ _ _ _ _ _ hp.1 hp.2.1 hm
          refine ⟨hq.1.1, hq.1.2.1, by simp, fun _ => Or.inr ?_⟩
          exact isBracketed_of_hasEquals (hq.2 rfl)


theorem evalF_counted {σ : Type} (f : NoisyFunction σ) (s : σ) (n : Nat) (x : ℚ) :
    evalF (counted f) (s, n) x = ((evalF f s x).1, ((evalF f s x).2, n + 1)) := rfl

theorem widenLoop_count {σ : Type} (IGOLD2 : ℚ) (f1d : NoisyFunction σ) (maxNIter : Int)
    (epsx : ℚ) :
    ∀ (fuel : Nat) (br : NoisyBracket) (iter : Int) (s : σ) (n : Nat),
      iter ≤ maxNIter + 1 → (maxNIter + 2 - iter).toNat ≤ fuel →
      ∃ ex br2 iter2 s2 n2,
        widenLoop IGOLD2 (counted f1d) maxNIter epsx fuel br iter (s, n)
          = some (ex, br2, iter2, (s2, n2)) ∧ CountPost maxNIter iter n ex iter2 n2 := by
  intro fuel
  induction fuel with
  | zero => intro br iter s n h1 h2; omega
  | succ k ih =>
    intro br iter s n h1 h2
    simp only [widenLoop]
    split
    · split
      · exact ⟨_, _, _, _, _, rfl, by omega, le_refl _, by omega, by simp⟩
      · split
        · exact ⟨_, _, _, _, _, rfl, by omega, le_refl _, by omega, by simp⟩
        · split
          · exact ⟨_, _, _, _, _, rfl, by omega, le_refl _, by omega,
              by simp⟩
          · rename_i hc
            simp only [evalF_counted]
            obtain ⟨ex, br2, iter2, s2, n2, he, hp⟩ :=
              ih { a := br.a, b := br.c,
                   c := { x := br.a.x + (br.c.x - br.a.x) / IGOLD2,
                          f := (evalF f1d s (br.a.x + (br.c.x - br.a.x) / IGOLD2)).1 } }
                (iter + 1) (evalF f1d s (br.a.x + (br.c.x - br.a.x) / IGOLD2)).2 (n + 1)
                (by omega) (by omega)
            refine ⟨ex, br2, iter2, s2, n2, he, ?_⟩
            simp only [CountPost] at hp ⊢
            refine ⟨by omega, by omega, by omega, fun h => ?_⟩
            have := hp.2.2.2 h
            omega
    · exact ⟨_, _, _, _, _, rfl, by omega, le_refl _, by omega,
        fun _ => by omega⟩

theorem mainLoop_count {σ : Type} (IGOLD2 : ℚ) (f1d : NoisyFunction σ) (maxNIter : Int)
    (epsx : ℚ) :
    ∀ (fuel : Nat) (br : NoisyBracket) (iter : Int) (s : σ) (n : Nat),
      iter ≤ maxNIter + 1 → (maxNIter + 2 - iter).toNat ≤ fuel →
      ∃ ex br2 iter2 s2 n2,
        mainLoop IGOLD2 (counted f1d) maxNIter epsx fuel br iter (s, n)
          = some (ex, br2, iter2, (s2, n2)) ∧ CountPost maxNIter iter n ex iter2 n2 := by
  intro fuel
  induction fuel with
  | zero => intro br iter s n h1 h2; omega
  | succ k ih =>
    intro br iter s n h1 h2
    simp only [mainLoop]
    split
    · split
      · exact ⟨_, _, _, _, _, rfl, by omega, le_refl _, by omega, by simp⟩
      · split
        · exact ⟨_, _, _, _, _, rfl, by omega, le_refl _, by omega, by simp⟩
        · split
          · exact ⟨_, _, _, _, _, rfl, by omega, le_refl _, by omega,
              by simp⟩
          · rename_i hc
            split
            · simp only [evalF_counted]
              obtain ⟨ex, br2, iter2, s2, n2, he, hp⟩ :=
                ih { a := br.b, b := br.c,
                     c := { x := (br.c.x - br.b.x) / IGOLD2 + br.b.x,
                            f := (evalF f1d s ((br.c.x - br.b.x) / IGOLD2 + br.b.x)).1 } }
                  (iter + 1) (evalF f1d s ((br.c.x - br.b.x) / IGOLD2 + br.b.x)).2 (n + 1)
                  (by omega) (by omega)
              refine ⟨ex, br2, iter2, s2, n2, he, ?_⟩
              simp only [CountPost] at hp ⊢
              refine ⟨by omega, by omega, by omega, fun h => ?_⟩
              have := hp.2.2.2 h
              omega
            · simp only [evalF_counted]
              obtain ⟨ex, br2, iter2, s2, n2, he, hp⟩ :=
                ih { a := br.a,
                     b := { x := (br.b.x - br.a.x) * IGOLD2 + br.a.x,
                            f := (evalF f1d s ((br.b.x - br.a.x) * IGOLD2 + br.a.x)).1 },
                     c := br.b }
                  (iter + 1) (evalF f1d s ((br.b.x - br.a.x) * IGOLD2 + br.a.x)).2 (n + 1)
                  (by omega) (by omega)
              refine ⟨ex, br2, iter2, s2, n2, he, ?_⟩
              simp only [CountPost] at hp ⊢
              refine ⟨by omega, by omega, by omega, fun h => ?_⟩
              have := hp.2.2.2 h
              omega
    · exact ⟨_, _, _, _, _, rfl, by omega, le_refl _, by omega,
        fun _ => by omega⟩

end nfm

/-! ## Claims on `findBracket` -/

namespace nfm

/-- C1: whenever `findBracket` returns `true`, the bracket it leaves satisfies
`a.x < b.x < c.x`, `a.f` is distinguishably greater than `b.f` and `c.f` is
distinguishably greater than `b.f`; for every objective, initial triple,
iteration cap and `epsx` (with `0 < IGOLD2 < 1`). -/
theorem findBracket_true_bracketing {σ : Type} (IGOLD2 : ℚ) (h0 : 0 < IGOLD2) (h1 : IGOLD2 < 1)
    (f1d : NoisyFunction σ) (bracket : NoisyBracket) (maxNIter : Int) (epsx : ℚ) (s : σ)
    (fuel : Nat) (r : FindBracketResult σ)
    (h : findBracket IGOLD2 f1d bracket maxNIter epsx s fuel = some (.ok r))
    (hflag : r.flag = true) :
    r.bracket.a.x < r.bracket.b.x ∧ r.bracket.b.x < r.bracket.c.x ∧
      r.bracket.a.f.gt r.bracket.b.f = true ∧ r.bracket.c.f.gt r.bracket.b.f = true := by
  have hp := findBracket_post h0 h1 f1d bracket maxNIter epsx s fuel r h
  have hb := hp.2.2.1 (by rw [hflag])
  simp only [isBracketed, Bool.and_eq_true] at hb
  exact ⟨hp.1, hp.2.1, hb.1, by rw [NoisyValue.gt_eq_lt_swap]; exact hb.2⟩

/-- Witness of C1: the parabola of `test/ut1` started from `[-1.5, 10]`. -/
theorem findBracket_true_bracketing_witness :
    findBracket igold2 parabola parabolaBracket 50 (1 / 1000) () 60 = some (.ok parabolaResult) ∧
      parabolaResult.flag = true ∧
      (parabolaResult.bracket.a.x < parabolaResult.bracket.b.x ∧
        parabolaResult.bracket.b.x < parabolaResult.bracket.c.x ∧
        parabolaResult.bracket.a.f.gt parabolaResult.bracket.b.f = true ∧
        parabolaResult.bracket.c.f.gt parabolaResult.bracket.b.f = true) :=
  ⟨by decide!, rfl,
    findBracket_true_bracketing igold2 (by norm_num [igold2]) (by norm_num [igold2]) parabola
      parabolaBracket 50 (1 / 1000) () 60 parabolaResult (by decide!) rfl⟩

/-- C2: for every 1-D objective, every initial triple that passes the ordering
validation, every `maxNIter ≥ 0` and every `epsx`, `findBracket` terminates
(any fuel from `maxNIter + 2` on gives a result) and the objective is
evaluated at most `maxNIter + 1` times by the two loops together; the shared
counter `iter` ends at `maxNIter + 2` at most. -/
theorem findBracket_terminates_within_cap {σ : Type} (IGOLD2 : ℚ) (f1d : NoisyFunction σ)
    (bracket : NoisyBracket) (maxNIter : Int) (epsx : ℚ) (s : σ) (fuel : Nat)
    (hdim : f1d.ndim = 1)
    (hvalid : validateBracketX (sortedBracket bracket).a.x (sortedBracket bracket).b.x
      (sortedBracket bracket).c.x "nfm::findBracket" = .ok ())
    (hcap : 0 ≤ maxNIter) (hfuel : maxNIter.toNat + 2 ≤ fuel) :
    ∃ r : FindBracketResult (σ × Nat),
      findBracket IGOLD2 (counted f1d) bracket maxNIter epsx (s, 0) fuel = some (.ok r) ∧
      r.state.2 ≤ maxNIter.toNat + 1 ∧ r.iter ≤ maxNIter + 2 := by
  obtain ⟨ex, br2, iter2, s2, n2, hw, hp⟩ :=
    widenLoop_count IGOLD2 f1d maxNIter (max 0 epsx) fuel (sortedBracket bracket) 0 s 0
      (by omega) (by omega)
  have hd : (counted f1d).ndim = 1 := hdim
  simp only [findBracket, hd, ne_eq, not_true_eq_false, if_false, hvalid, hw]
  simp only [CountPost] at hp
  cases ex with
  | ret flag => exact ⟨_, rfl, by simp only; omega, by simp only; omega⟩
  | done =>
    have hdone := hp.2.2.2 rfl
    obtain ⟨ex3, br3, iter3, s3, n3, hm, hq⟩ :=
      mainLoop_count IGOLD2 f1d maxNIter (max 0 epsx) fuel br2 iter2 s2 n2
        (by omega) (by omega)
    simp only [hm]
    simp only [CountPost] at hq
    cases ex3 with
    | ret flag => exact ⟨_, rfl, by simp only; omega, by simp only; omega⟩
    | done => exact ⟨_, rfl, by simp only; omega, by simp only; omega⟩


/-- Witness of C2: the parabola of `test/ut1` with the cap `50`. -/
theorem findBracket_terminates_within_cap_witness :
    ∃ r : FindBracketResult (Unit × Nat),
      findBracket igold2 (counted parabola) parabolaBracket 50 (1 / 1000) ((), 0) 52
        = some (.ok r) ∧
      r.state.2 ≤ Int.toNat 50 + 1 ∧ r.iter ≤ 50 + 2 :=
  findBracket_terminates_within_cap igold2 parabola parabolaBracket 50 (1 / 1000) () 52 rfl
    (by decide!) (by decide) (by decide)

/-- C10, counterexample: on the bracket `0, 1, 2` of `(x - 1)^2` with
`epsx = 5`, `findBracket` returns `false` at the tolerance test and leaves a
bracket that satisfies the bracketing condition. -/
theorem findBracket_false_yet_bracketed :
    findBracket igold2 shiftedParabola unitBracket 50 5 () 60
        = some (.ok { flag := false, bracket := unitBracket, iter := 0, state := () }) ∧
      unitBracket.a.f.gt unitBracket.b.f = true ∧ unitBracket.c.f.gt unitBracket.b.f = true := by
  decide!

/-- C10, amended: whenever `findBracket` returns `false`, the bracket it leaves
either has a neighbouring position gap that is not above `max(0, epsx)` or
does not satisfy the bracketing condition. -/
theorem findBracket_false_tolerance_or_invalid {σ : Type} (IGOLD2 : ℚ) (h0 : 0 < IGOLD2)
    (h1 : IGOLD2 < 1) (f1d : NoisyFunction σ) (bracket : NoisyBracket) (maxNIter : Int)
    (epsx : ℚ) (s : σ) (fuel : Nat) (r : FindBracketResult σ)
    (h : findBracket IGOLD2 f1d bracket maxNIter epsx s fuel = some (.ok r))
    (hflag : r.flag = false) :
    checkBracketXTol r.bracket (max 0 epsx) = false ∨
      ¬ (r.bracket.a.f.gt r.bracket.b.f = true ∧ r.bracket.c.f.gt r.bracket.b.f = true) := by
  have hp := findBracket_post h0 h1 f1d bracket maxNIter epsx s fuel r h
  rcases hp.2.2.2 (by rw [hflag]) with hx | hb
  · exact Or.inl hx
  · refine Or.inr (fun hc => ?_)
    rw [NoisyValue.gt_eq_lt_swap r.bracket.c.f] at hc
    simp [isBracketed, hc.1, hc.2] at hb

/-- Witness of C10 (amended): a constant objective exhausts the cap `3`. -/
theorem findBracket_false_tolerance_or_invalid_witness :
    findBracket igold2 flat flatBracket 3 0 () 10 = some (.ok flatResult) ∧
      flatResult.flag = false ∧
      (checkBracketXTol flatResult.bracket (max 0 0) = false ∨
        ¬ (flatResult.bracket.a.f.gt flatResult.bracket.b.f = true ∧
          flatResult.bracket.c.f.gt flatResult.bracket.b.f = true)) :=
  ⟨by decide!, rfl,
    findBracket_false_tolerance_or_invalid igold2 (by norm_num [igold2]) (by norm_num [igold2])
      flat flatBracket 3 0 () 10 flatResult (by decide!) rfl⟩

end nfm

/-! ## Lemmas on the convergence detector -/

namespace Adam

open nfm

theorem differsFromFirst_eq_false_iff (first : NoisyValue) (rest : List NoisyValue) :
    differsFromFirst first rest = false ↔ ∀ v ∈ rest, v.eq first = true := by
  induction rest with
  | nil => simp [differsFromFirst]
  | cons v rest ih =>
    simp only [differsFromFirst, List.mem_cons, forall_eq_or_imp]
    cases hv : v.eq first <;> simp [ih]

/-- The window of the detector after a call: the new value in front, the
oldest value dropped when the capacity is exceeded. -/
theorem isNotConverged_window (N : Nat) (old : List NoisyValue) (x : NoisyValue) :
    (isNotConverged N old x).2 = windowAfter N old x := by
  simp only [isNotConverged]
  generalize windowAfter N old x = w
  cases w <;> simp only [] <;> split_ifs <;> rfl

theorem windowAfter_tail_cases (N : Nat) (old : List NoisyValue) (x : NoisyValue) :
    windowAfter N old x = [] ∨ ∃ rest, windowAfter N old x = x :: rest := by
  simp only [windowAfter]
  split
  · cases old with
    | nil => left; rfl
    | cons y ys => right; exact ⟨(y :: ys).dropLast, rfl⟩
  · right; exact ⟨old, rfl⟩

/-- The flag of the detector: "converged" iff the window is at capacity and
every entry after the newest is indistinguishable from the newest. -/
theorem isNotConverged_flag_iff (N : Nat) (old : List NoisyValue) (x : NoisyValue) :
    (isNotConverged N old x).1 = false ↔
      (windowAfter N old x).length = N ∧ ∀ v ∈ (windowAfter N old x).tail, v.eq x = true := by
  rcases windowAfter_tail_cases N old x with h | ⟨rest, h⟩
  · simp only [isNotConverged, h]
    by_cases hN : N = 0
    · subst hN; simp
    · have : ¬ (0 = N) := fun h => hN h.symm
      simp [this]
  · simp only [isNotConverged, h, List.tail_cons]
    by_cases hN : (x :: rest).length = N
    · simp only [hN, if_true, true_and, lt_irrefl, if_false]
      rw [← differsFromFirst_eq_false_iff]
      cases differsFromFirst x rest <;> simp
    · have hN2 : ¬ (rest.length + 1 = N) := hN
      simp [hN2]

theorem windowAfter_of_lt {N : Nat} {old : List NoisyValue} (x : NoisyValue)
    (h : old.length < N) : windowAfter N old x = x :: old := by
  simp only [windowAfter, List.length_cons]
  rw [if_neg (by omega)]

theorem feed_snoc (N : Nat) (x : NoisyValue) :
    ∀ (init old : List NoisyValue), old.length + init.length < N →
      feed N old (init ++ [x]) = isNotConverged N (init.reverse ++ old) x := by
  intro init
  induction init with
  | nil => intro old _; rfl
  | cons y ys ih =>
    intro old h
    have hstep : feed N old ((y :: ys) ++ [x]) = feed N (isNotConverged N old y).2 (ys ++ [x]) := by
      cases ys <;> rfl
    simp only [List.length_cons] at h
    rw [hstep, isNotConverged_window, windowAfter_of_lt y (by omega), ih (y :: old)
      (by simp only [List.length_cons]; omega)]
    simp

end Adam

/-! ## Claims on the convergence detector -/

namespace Adam

open nfm

/-- C5: a call of the detector with capacity `N` leaves as window the list
`x :: old_values` (the current value inserted at the front), without its last
entry (the oldest value) if that list is longer than `N`; it reports
"converged" (returns `false`) if and only if this window holds exactly `N`
values and every one of them is indistinguishable from the newest; in
particular it reports "continue" whenever the window holds fewer than `N`
values. The error of the current value is non-negative, as the data model
requires. -/
theorem isNotConverged_converged_iff (N : Nat) (old_values : List NoisyValue) (x : NoisyValue)
    (hx : 0 ≤ x.err) :
    (isNotConverged N old_values x).2
        = (if (x :: old_values).length > N then (x :: old_values).dropLast
            else x :: old_values) ∧
      ((isNotConverged N old_values x).1 = false ↔
        (if (x :: old_values).length > N then (x :: old_values).dropLast
            else x :: old_values).length = N ∧
          ∀ v ∈ (if (x :: old_values).length > N then (x :: old_values).dropLast
            else x :: old_values), v.eq x = true) ∧
      ((if (x :: old_values).length > N then (x :: old_values).dropLast
            else x :: old_values).length < N → (isNotConverged N old_values x).1 = true) := by
  have hw : windowAfter N old_values x
      = (if (x :: old_values).length > N then (x :: old_values).dropLast
          else x :: old_values) := rfl
  rw [← hw]
  refine ⟨isNotConverged_window N old_values x, ?_, ?_⟩
  · rw [isNotConverged_flag_iff]
    rcases windowAfter_tail_cases N old_values x with h | ⟨rest, h⟩
    · simp [h]
    · simp only [h, List.tail_cons, List.mem_cons, forall_eq_or_imp, NoisyValue.eq_self hx,
        true_and]
  · intro hlt
    cases hf : (isNotConverged N old_values x).1 with
    | true => rfl
    | false =>
      have := ((isNotConverged_flag_iff N old_values x).1 hf).1
      omega

/-- Witness of C5: capacity `2` with two values already in the window, so the
oldest one, `9 ± 1`, is evicted and the call reports "converged". -/
theorem isNotConverged_converged_iff_witness :
    (isNotConverged 2 [{ val := 1, err := 1 }, { val := 9, err := 1 }] { val := 2, err := 1 }).2
        = [{ val := 2, err := 1 }, { val := 1, err := 1 }] ∧
      (isNotConverged 2 [{ val := 1, err := 1 }, { val := 9, err := 1 }]
        { val := 2, err := 1 }).1 = false :=
  have h := isNotConverged_converged_iff 2 [{ val := 1, err := 1 }, { val := 9, err := 1 }]
    { val := 2, err := 1 } (by decide!)
  ⟨h.1.trans (by decide!), h.2.1.2 (by decide!)⟩

/-- C6: starting from an empty window of capacity `N ≥ 1`, feeding the
detector `N` mutually indistinguishable values in a row makes the `N`-th feed
report "converged" (`false`). -/
theorem feed_indistinguishable_converged (N : Nat) (vs : List NoisyValue) (hN : 1 ≤ N)
    (hlen : vs.length = N) (hmut : ∀ a ∈ vs, ∀ b ∈ vs, a.eq b = true) :
    (feed N [] vs).1 = false := by
  have hne : vs ≠ [] := by
    intro h; rw [h] at hlen; simp at hlen; omega
  obtain ⟨init, x, rfl⟩ : ∃ init x, vs = init ++ [x] :=
    ⟨vs.dropLast, vs.getLast hne, (List.dropLast_append_getLast hne).symm⟩
  simp only [List.length_append, List.length_singleton] at hlen
  rw [feed_snoc N x init [] (by simp only [List.length_nil]; omega), List.append_nil,
    isNotConverged_flag_iff,
    windowAfter_of_lt x (by simp only [List.length_reverse]; omega)]
  refine ⟨by simp only [List.length_cons, List.length_reverse]; omega, ?_⟩
  intro v hv
  simp only [List.tail_cons, List.mem_reverse] at hv
  exact hmut v (by simp [hv]) x (by simp)

/-- Witness of C6: three overlapping values, capacity `3`. -/
theorem feed_indistinguishable_converged_witness :
    (feed 3 [] [{ val := 1, err := 1 }, { val := 2, err := 1 }, { val := 3 / 2, err := 1 }]).1
      = false :=
  feed_indistinguishable_converged 3
    [{ val := 1, err := 1 }, { val := 2, err := 1 }, { val := 3 / 2, err := 1 }]
    (by decide) rfl (by decide!)

/-- C7: starting from an empty window of capacity `N ≥ 2`, if the `N` values
fed consist of `N - 1` mutually indistinguishable values (`pre` and `post`)
and one value `d` distinguishable from each of them, at any position, then the
`N`-th feed reports "continue" (`true`). -/
theorem feed_one_distinguishable_continues (N : Nat) (pre post : List NoisyValue)
    (d : NoisyValue) (hN : 2 ≤ N) (hlen : (pre ++ d :: post).length = N)
    (_hmut : ∀ a ∈ pre ++ post, ∀ b ∈ pre ++ post, a.eq b = true)
    (hd : ∀ v ∈ pre ++ post, d.eq v = false) :
    (feed N [] (pre ++ d :: post)).1 = true := by
  simp only [List.length_append, List.length_cons] at hlen
  cases hf : (feed N [] (pre ++ d :: post)).1 with
  | true => rfl
  | false =>
    exfalso
    rcases List.eq_nil_or_concat post with hp | ⟨post2, x, hp⟩
    · subst hp
      simp only [List.length_nil] at hlen
      rw [feed_snoc N d pre [] (by simp only [List.length_nil]; omega), List.append_nil,
        isNotConverged_flag_iff,
        windowAfter_of_lt d (by simp only [List.length_reverse]; omega)] at hf
      obtain ⟨v, hv⟩ : ∃ v, v ∈ pre := by
        cases pre with
        | nil => simp only [List.length_nil] at hlen; omega
        | cons v _ => exact ⟨v, by simp⟩
      have h1 := hf.2 v (by simpa using hv)
      have h2 := hd v (by simp [hv])
      rw [NoisyValue.eq_comm] at h1
      rw [h1] at h2
      exact Bool.noConfusion h2
    · rw [List.concat_eq_append] at hp
      subst hp
      simp only [List.length_append, List.length_singleton] at hlen
      have hsplit : pre ++ d :: (post2 ++ [x]) = (pre ++ d :: post2) ++ [x] := by simp
      rw [hsplit, feed_snoc N x (pre ++ d :: post2) []
        (by simp only [List.length_nil, List.length_append, List.length_cons]; omega),
        List.append_nil, isNotConverged_flag_iff,
        windowAfter_of_lt x
          (by simp only [List.length_reverse, List.length_append, List.length_cons]; omega)] at hf
      have h1 := hf.2 d (by simp)
      have h2 := hd x (by simp)
      rw [h1] at h2
      exact Bool.noConfusion h2

/-- Witness of C7: capacity `3`, the distinguishable value in the middle. -/
theorem feed_one_distinguishable_continues_witness :
    (feed 3 [] ([{ val := 1, err := 1 }] ++ { val := 10, err := 1 } :: [{ val := 2, err := 1 }])).1
      = true :=
  feed_one_distinguishable_continues 3 [{ val := 1, err := 1 }] [{ val := 2, err := 1 }]
    { val := 10, err := 1 } (by decide) rfl (by decide!) (by decide!)

end Adam

/-! ## Lemmas on `brentMin` -/

namespace nfm

theorem brentTrial_within {IGOLD2 : ℚ} (h0 : 0 < IGOLD2) (h1 : IGOLD2 < 1) (st : BrentState)
    (hlo : st.bracket.a.x + (3 / 200000000) * |st.bracket.b.x| ≤ st.bracket.b.x)
    (hhi : st.bracket.b.x + (3 / 200000000) * |st.bracket.b.x| ≤ st.bracket.c.x) :
    st.bracket.a.x ≤ (brentTrial IGOLD2 st).2.2 ∧ (brentTrial IGOLD2 st).2.2 ≤ st.bracket.c.x := by
  have htol : 0 ≤ (3 / 200000000 : ℚ) * |st.bracket.b.x| := by positivity
  simp only [brentTrial]
  generalize (3 / 200000000 : ℚ) * |st.bracket.b.x| = tol at *
  generalize brentFit st tol = fit
  by_cases hc : |fit.1| < |(1 / 2) * fit.2.1 * fit.2.2.1| ∧
      fit.1 < fit.2.1 * (st.bracket.b.x - st.bracket.a.x) ∧
      fit.1 < fit.2.1 * (st.bracket.c.x - st.bracket.b.x)
  · simp only [hc, and_self, if_true]
    by_cases hout : st.bracket.b.x + fit.1 / fit.2.1 - st.bracket.a.x < 2 * tol ∨
        st.bracket.c.x - (st.bracket.b.x + fit.1 / fit.2.1) < 2 * tol
    · simp only [hout, if_true]
      split_ifs <;> constructor <;> linarith
    · simp only [hout, if_false]
      push_neg at hout
      split_ifs <;> constructor <;> linarith
  · simp only [hc, if_false]
    split_ifs <;> constructor <;> nlinarith
theorem brentUpdate_within {a0 c0 : ℚ} (st : BrentState) (d e : ℚ) (u : NoisyIOPair1D)
    (h : BrentWithin a0 c0 st) (hu : st.bracket.a.x ≤ u.x ∧ u.x ≤ st.bracket.c.x) :
    BrentWithin a0 c0 (brentUpdate st d e u) := by
  obtain ⟨ha, hab, hbc, hc⟩ := h
  simp only [brentUpdate, BrentWithin]
  split_ifs <;> simp only [] <;> refine ⟨?_, ?_, ?_, ?_⟩ <;> linarith [hu.1, hu.2]

theorem brentLoop_within {σ : Type} {IGOLD2 : ℚ} (h0 : 0 < IGOLD2) (h1 : IGOLD2 < 1)
    (f1d : NoisyFunction σ) (epsx epsf a0 c0 : ℚ)
    (heps : (3 / 200000000) * max |a0| |c0| ≤ epsx) :
    ∀ (n : Nat) (st : BrentState) (s : σ), BrentWithin a0 c0 st →
      BrentWithin a0 c0 (brentLoop IGOLD2 f1d epsx epsf n st s).1 := by
  intro n
  induction n with
  | zero => intro st s h; exact h
  | succ k ih =>
    intro st s h
    simp only [brentLoop]
    split_ifs with hx hf
    · exact h
    · exact h
    · apply ih
      simp only [brentStep]
      apply brentUpdate_within _ _ _ _ h
      simp only [Bool.not_eq_true, Bool.not_eq_false] at hx
      simp only [Bool.not_eq_true', Bool.not_eq_false'] at hx
      simp only [checkBracketXTol, Bool.and_eq_true, decide_eq_true_eq, gt_iff_lt] at hx
      obtain ⟨ha, hab, hbc, hc⟩ := h
      have hm : |st.bracket.b.x| ≤ max |a0| |c0| := by
        rw [abs_le]
        constructor
        · have := neg_abs_le a0
          have := le_max_left |a0| |c0|
          linarith
        · have := le_abs_self c0
          have := le_max_right |a0| |c0|
          linarith
      have htol : (3 / 200000000 : ℚ) * |st.bracket.b.x| ≤ epsx := by nlinarith
      have e1 := abs_of_nonneg (sub_nonneg.2 hbc)
      have e2 := abs_of_nonneg (sub_nonneg.2 hab)
      rw [e1, e2] at hx
      exact brentTrial_within h0 h1 st (by linarith [hx.2]) (by linarith [hx.1])

theorem brentMin_ok {σ : Type} (IGOLD2 : ℚ) (f1d : NoisyFunction σ) (bracket : NoisyBracket)
    (maxNIter : Int) (epsx epsf : ℚ) (s : σ) (hdim : f1d.ndim = 1)
    (hvalid : validateBracket bracket "nfm::brentMin" = .ok ()) :
    brentMin IGOLD2 f1d bracket maxNIter epsx epsf s
      = .ok (brentFinish f1d (brentLoop IGOLD2 f1d (max 0 epsx) (max 0 epsf) maxNIter.toNat
          (brentInit IGOLD2 f1d bracket s).1 (brentInit IGOLD2 f1d bracket s).2)) := by
  simp only [brentMin, hdim, ne_eq, not_true_eq_false, if_false, hvalid]

theorem validateBracket_ok {bracket : NoisyBracket} {name : String}
    (hx : bracket.a.x < bracket.b.x ∧ bracket.b.x < bracket.c.x)
    (hf : bracket.a.f.gt bracket.b.f = true ∧ bracket.b.f.lt bracket.c.f = true) :
    validateBracket bracket name = .ok () := by
  have h1 : ¬ (bracket.a.x ≥ bracket.c.x) := by
    simp only [ge_iff_le, not_le]; exact lt_trans hx.1 hx.2
  have h2 : ¬ (bracket.b.x ≥ bracket.c.x ∨ bracket.b.x ≤ bracket.a.x) := by
    simp only [ge_iff_le, not_or, not_le]; exact ⟨hx.2, hx.1⟩
  simp [validateBracket, validateBracketX, h1, h2, isBracketed, hf.1, hf.2]

end nfm

/-! ## Claims on `brentMin` and `multiLineMin` -/

namespace nfm

/-- C3, counterexample: on the valid bracket `10^9 - 1, 10^9, 10^9 + 2` of
`ledge`, with `epsx = 0`, `brentMin` returns the position `10^9 + 15`, which is
beyond `c.x`. -/
theorem brentMin_leaves_bracket :
    validateBracket ledgeBracket "nfm::brentMin" = .ok () ∧
      brentMin igold2 ledge ledgeBracket 100 0 0 ()
        = .ok ({ x := 1000000015, f := { val := -1, err := 0 } }, ()) ∧
      ledgeBracket.c.x < 1000000015 := by
  decide!

/-- C3, amended: for every 1-D objective, every valid input bracket, every
`maxNIter` and `epsf`, and every `epsx` that is at least the largest step
tolerance `1.5e-8 * max(|a.x|, |c.x|)`, `brentMin` returns a position in
`[a.x, c.x]` (with `0 < IGOLD2 < 1`). -/
theorem brentMin_within_bracket {σ : Type} (IGOLD2 : ℚ) (h0 : 0 < IGOLD2) (h1 : IGOLD2 < 1)
    (f1d : NoisyFunction σ) (bracket : NoisyBracket) (maxNIter : Int) (epsx epsf : ℚ) (s : σ)
    (hdim : f1d.ndim = 1)
    (hx : bracket.a.x < bracket.b.x ∧ bracket.b.x < bracket.c.x)
    (hf : bracket.a.f.gt bracket.b.f = true ∧ bracket.b.f.lt bracket.c.f = true)
    (heps : (3 / 200000000) * max |bracket.a.x| |bracket.c.x| ≤ epsx) :
    ∃ (r : NoisyIOPair1D) (s2 : σ),
      brentMin IGOLD2 f1d bracket maxNIter epsx epsf s = .ok (r, s2) ∧
        bracket.a.x ≤ r.x ∧ r.x ≤ bracket.c.x := by
  have hinit : BrentWithin bracket.a.x bracket.c.x (brentInit IGOLD2 f1d bracket s).1 :=
    ⟨le_refl _, le_of_lt hx.1, le_of_lt hx.2, le_refl _⟩
  have hloop := brentLoop_within h0 h1 f1d (max 0 epsx) (max 0 epsf) bracket.a.x bracket.c.x
    (le_trans heps (le_max_right 0 epsx)) maxNIter.toNat _ (brentInit IGOLD2 f1d bracket s).2 hinit
  have hret := brentMin_ok IGOLD2 f1d bracket maxNIter epsx epsf s hdim
    (validateBracket_ok hx hf)
  exact ⟨_, _, hret, le_trans hloop.1 hloop.2.1, le_trans hloop.2.2.1 hloop.2.2.2⟩

/-- Witness of C3 (amended): the shifted parabola on the bracket `0, 1, 2` with
`epsx = 1/1000`. -/
theorem brentMin_within_bracket_witness :
    ∃ (r : NoisyIOPair1D) (s2 : Unit),
      brentMin igold2 shiftedParabola unitBracket 20 (1 / 1000) 0 () = .ok (r, s2) ∧
        unitBracket.a.x ≤ r.x ∧ r.x ≤ unitBracket.c.x :=
  brentMin_within_bracket igold2 (by norm_num [igold2]) (by norm_num [igold2]) shiftedParabola
    unitBracket 20 (1 / 1000) 0 () rfl (by decide!) (by decide!) (by decide!)

/-- C9: whenever `multiLineMin` does not accept a new point (`findBracket`
returned `false`, or the Brent result is distinguishably greater than `p0.f`),
it returns the input position `p0.x` unchanged together with a fresh
evaluation of the objective at `p0.x`, made after the search. -/
theorem multiLineMin_rejection_keeps_position {σ : Type} (IGOLD2 STD_XTOL STD_FTOL : ℚ)
    (mdf : NoisyFunction σ) (p0Pair : NoisyIOPair) (dir : List ℚ) (params : MLMParams) (s : σ)
    (fuel : Nat) (fb : FindBracketResult σ)
    (hsize : mdf.ndim = (p0Pair.x.length : Int) ∧ p0Pair.x.length = dir.length)
    (hstep : 0 ≤ params.stepLeft ∧ 0 < params.stepRight)
    (hfb : findBracket IGOLD2 (FunProjection1D mdf p0Pair.x dir)
        (mlmBracket IGOLD2 mdf p0Pair dir params s).1 params.maxNBracket
        (mlmEps params.epsx STD_XTOL) (mlmBracket IGOLD2 mdf p0Pair dir params s).2 fuel
      = some (.ok fb)) :
    (fb.flag = false →
      multiLineMin IGOLD2 STD_XTOL STD_FTOL mdf p0Pair dir params s fuel
        = some (.ok ({ x := p0Pair.x, f := (mdf.f fb.state p0Pair.x).1 },
            (mdf.f fb.state p0Pair.x).2))) ∧
    (fb.flag = true → ∀ (min1D : NoisyIOPair1D) (s2 : σ),
      brentMin IGOLD2 (FunProjection1D mdf p0Pair.x dir) fb.bracket params.maxNMinimize
          (mlmEps params.epsx STD_XTOL) (mlmEps params.epsf STD_FTOL) fb.state
        = .ok (min1D, s2) →
      min1D.f.gt p0Pair.f = true →
      multiLineMin IGOLD2 STD_XTOL STD_FTOL mdf p0Pair dir params s fuel
        = some (.ok ({ x := p0Pair.x, f := (mdf.f s2 p0Pair.x).1 }, (mdf.f s2 p0Pair.x).2))) := by
  have h1 : ¬ (mdf.ndim ≠ (p0Pair.x.length : Int) ∨ p0Pair.x.length ≠ dir.length) := by
    simp [hsize.1, hsize.2]
  have h2 : ¬ (params.stepLeft < 0 ∨ params.stepRight ≤ 0) := by
    simp only [not_or, not_lt, not_le]; exact hstep
  constructor
  · intro hflag
    simp only [multiLineMin, h1, h2, if_false, hfb, hflag, mlmOldPosition]
    rfl
  · intro hflag min1D s2 hb hgt
    simp only [multiLineMin, h1, h2, if_false, hfb, hflag, if_true, hb, NoisyValue.le, hgt,
      mlmOldPosition]
    rfl

/-- Witness of C9: the constant objective `5`, where no bracket is found. -/
theorem multiLineMin_rejection_keeps_position_witness :
    multiLineMin igold2 (1 / 100000) (1 / 100000) constFive { x := [0], f := { val := 0, err := 0 } }
        [1] unitParams () 10
      = some (.ok ({ x := [0], f := (constFive.f constFiveFB.state [0]).1 },
          (constFive.f constFiveFB.state [0]).2)) :=
  (multiLineMin_rejection_keeps_position igold2 (1 / 100000) (1 / 100000) constFive
    { x := [0], f := { val := 0, err := 0 } } [1] unitParams () 10 constFiveFB
    ⟨rfl, rfl⟩ ⟨by decide!, by decide!⟩ (by decide!)).1 rfl

/-- C4, counterexample: the starting value `-10 ± 1` is the first sample of
`outlierFirst` at `p0.x`; no bracket is found, and `multiLineMin` returns the
fresh sample `0 ± 1`, which is distinguishably greater than the starting
value. -/
theorem multiLineMin_returns_worse :
    (outlierFirst.f 0 [0]).1 = { val := -10, err := 1 } ∧
      multiLineMin igold2 (1 / 100000) (1 / 100000) outlierFirst
          { x := [0], f := { val := -10, err := 1 } } [1] unitParams 1 10
        = some (.ok ({ x := [0], f := { val := 0, err := 1 } }, 8)) ∧
      NoisyValue.gt { val := 0, err := 1 } { val := -10, err := 1 } = true := by
  decide!

/-- C4, amended: the value `multiLineMin` returns is not distinguishably
greater than `p0.f`, or it is a fresh evaluation of the objective at the
unchanged position `p0.x`. -/
theorem multiLineMin_not_worse_or_fresh {σ : Type} (IGOLD2 STD_XTOL STD_FTOL : ℚ)
    (mdf : NoisyFunction σ) (p0Pair : NoisyIOPair) (dir : List ℚ) (params : MLMParams) (s : σ)
    (fuel : Nat) (r : NoisyIOPair) (s2 : σ)
    (h : multiLineMin IGOLD2 STD_XTOL STD_FTOL mdf p0Pair dir params s fuel = some (.ok (r, s2))) :
    r.f.gt p0Pair.f = false ∨
      (r.x = p0Pair.x ∧ ∃ s1 : σ, r.f = (mdf.f s1 p0Pair.x).1 ∧ s2 = (mdf.f s1 p0Pair.x).2) := by
  simp only [multiLineMin] at h
  split at h
  · simp at h
  · split at h
    · simp at h
    · split at h
      · simp at h
      · simp at h
      · rename_i fb hfb
        split at h
        · split at h
          · simp at h
          · rename_i min1D s3 hb
            split at h
            · rename_i hle
              simp only [Option.some.injEq, Except.ok.injEq, Prod.mk.injEq] at h
              left
              rw [← h.1]
              simpa [NoisyValue.le] using hle
            · simp only [Option.some.injEq, Except.ok.injEq, Prod.mk.injEq, mlmOldPosition] at h
              right
              rw [← h.1, ← h.2]
              exact ⟨rfl, s3, rfl, rfl⟩
        · simp only [Option.some.injEq, Except.ok.injEq, Prod.mk.injEq, mlmOldPosition] at h
          right
          rw [← h.1, ← h.2]
          exact ⟨rfl, fb.state, rfl, rfl⟩

/-- Witness of C4 (amended): the shifted parabola from `x = 0` along `+1`,
where the new point is accepted. -/
theorem multiLineMin_not_worse_or_fresh_witness :
    NoisyValue.gt { val := 8916494400150481 / 160000000000000000, err := 0 }
        { val := 1, err := 0 } = false ∨
      (([305572809 / 400000000] : List ℚ) = [0] ∧ ∃ s1 : Unit,
        ({ val := 8916494400150481 / 160000000000000000, err := 0 } : NoisyValue)
            = (shiftedParabola.f s1 [0]).1 ∧
          () = (shiftedParabola.f s1 [0]).2) :=
  multiLineMin_not_worse_or_fresh igold2 (1 / 100000) (1 / 100000) shiftedParabola
    { x := [0], f := { val := 1, err := 0 } } [1]
    { stepLeft := 0, stepRight := 2, maxNBracket := 10, maxNMinimize := 0, epsx := 0, epsf := 0 }
    () 20
    { x := [305572809 / 400000000], f := { val := 8916494400150481 / 160000000000000000, err := 0 } }
    () (by decide!)

end nfm

/-! ## Lemmas on the outcome of `findBracket` -/

namespace nfm

theorem widenLoop_terminates {σ : Type} (IGOLD2 : ℚ) (f1d : NoisyFunction σ) (maxNIter : Int)
    (epsx : ℚ) :
    ∀ (fuel : Nat) (br : NoisyBracket) (iter : Int) (s : σ),
      (maxNIter + 1 - iter).toNat + 1 ≤ fuel →
      ∃ ex br2 iter2 s2,
        widenLoop IGOLD2 f1d maxNIter epsx fuel br iter s = some (ex, br2, iter2, s2) ∧
          iter ≤ iter2 := by
  intro fuel
  induction fuel with
  | zero => intro br iter s h; omega
  | succ k ih =>
    intro br iter s h
    simp only [widenLoop]
    split
    · split
      · exact ⟨_, _, _, _, rfl, le_refl _⟩
      · split
        · exact ⟨_, _, _, _, rfl, le_refl _⟩
        · split
          · exact ⟨_, _, _, _, rfl, by omega⟩
          · obtain ⟨ex, br2, iter2, s2, he, hi⟩ :=
              ih { a := br.a, b := br.c,
                   c := { x := br.a.x + (br.c.x - br.a.x) / IGOLD2,
                          f := (evalF f1d s (br.a.x + (br.c.x - br.a.x) / IGOLD2)).1 } }
                (iter + 1) (evalF f1d s (br.a.x + (br.c.x - br.a.x) / IGOLD2)).2 (by omega)
            exact ⟨ex, br2, iter2, s2, he, by omega⟩
    · exact ⟨_, _, _, _, rfl, le_refl _⟩

theorem mainLoop_terminates {σ : Type} (IGOLD2 : ℚ) (f1d : NoisyFunction σ) (maxNIter : Int)
    (epsx : ℚ) :
    ∀ (fuel : Nat) (br : NoisyBracket) (iter : Int) (s : σ),
      (maxNIter + 1 - iter).toNat + 1 ≤ fuel →
      ∃ ex br2 iter2 s2,
        mainLoop IGOLD2 f1d maxNIter epsx fuel br iter s = some (ex, br2, iter2, s2) := by
  intro fuel
  induction fuel with
  | zero => intro br iter s h; omega
  | succ k ih =>
    intro br iter s h
    simp only [mainLoop]
    split
    · split
      · exact ⟨_, _, _, _, rfl⟩
      · split
        · exact ⟨_, _, _, _, rfl⟩
        · split
          · exact ⟨_, _, _, _, rfl⟩
          · split
            · exact ih _ _ _ (by omega)
            · exact ih _ _ _ (by omega)
    · exact ⟨_, _, _, _, rfl⟩

/-- With a 1-D objective and a triple that passes the ordering validation,
`findBracket` returns a boolean as soon as the fuel covers the cap. -/
theorem findBracket_returns {σ : Type} (IGOLD2 : ℚ) (f1d : NoisyFunction σ)
    (bracket : NoisyBracket) (maxNIter : Int) (epsx : ℚ) (s : σ) (fuel : Nat)
    (hdim : f1d.ndim = 1)
    (hvalid : validateBracketX (sortedBracket bracket).a.x (sortedBracket bracket).b.x
      (sortedBracket bracket).c.x "nfm::findBracket" = .ok ())
    (hfuel : (maxNIter + 1).toNat + 1 ≤ fuel) :
    ∃ r : FindBracketResult σ,
      findBracket IGOLD2 f1d bracket maxNIter epsx s fuel = some (.ok r) := by
  obtain ⟨ex, br2, iter2, s2, hw, hi⟩ :=
    widenLoop_terminates IGOLD2 f1d maxNIter (max 0 epsx) fuel (sortedBracket bracket) 0 s
      (by omega)
  simp only [findBracket, hdim, ne_eq, not_true_eq_false, if_false, hvalid, hw]
  cases ex with
  | ret flag => exact ⟨_, rfl⟩
  | done =>
    obtain ⟨ex3, br3, iter3, s3, hm⟩ :=
      mainLoop_terminates IGOLD2 f1d maxNIter (max 0 epsx) fuel br2 iter2 s2 (by omega)
    simp only [hm]
    cases ex3 with
    | ret flag => exact ⟨_, rfl⟩
    | done => exact ⟨_, rfl⟩

/-- The ordering validation of `findBracket`, after `sortedBracket`, passes
exactly when `b.x` lies strictly between the two outer positions. -/
theorem validateBracketX_sorted_ok_iff (bracket : NoisyBracket) (name : String) :
    validateBracketX (sortedBracket bracket).a.x (sortedBracket bracket).b.x
        (sortedBracket bracket).c.x name = .ok () ↔
      min bracket.a.x bracket.c.x < bracket.b.x ∧ bracket.b.x < max bracket.a.x bracket.c.x := by
  simp only [sortedBracket, validateBracketX]
  by_cases h : bracket.a.x > bracket.c.x
  · simp only [h, if_true, min_eq_right (le_of_lt h), max_eq_left (le_of_lt h)]
    split_ifs with h1 h2
    · simp; intro h3; linarith
    · simp; intro h3; rcases h2 with h2 | h2 <;> linarith
    · push_neg at h2; simp [h2.1, h2.2]
  · simp only [h, if_false]
    push_neg at h
    simp only [min_eq_left h, max_eq_right h]
    split_ifs with h1 h2
    · simp; intro h3; linarith
    · simp; intro h3; rcases h2 with h2 | h2 <;> linarith
    · push_neg at h2; simp [h2.1, h2.2]

/-- When `findBracket` throws: the objective is not 1-D or the ordering
validation fails; the fuel plays no part. -/
theorem findBracket_error_iff {σ : Type} (IGOLD2 : ℚ) (f1d : NoisyFunction σ)
    (bracket : NoisyBracket) (maxNIter : Int) (epsx : ℚ) (s : σ) (fuel : Nat) :
    (∃ e, findBracket IGOLD2 f1d bracket maxNIter epsx s fuel = some (.error e)) ↔
      (f1d.ndim ≠ 1 ∨
        ¬ (min bracket.a.x bracket.c.x < bracket.b.x ∧
            bracket.b.x < max bracket.a.x bracket.c.x)) := by
  rw [← validateBracketX_sorted_ok_iff bracket "nfm::findBracket"]
  by_cases hdim : f1d.ndim = 1
  · simp only [findBracket, hdim, ne_eq, not_true_eq_false, if_false, false_or]
    cases hv : validateBracketX (sortedBracket bracket).a.x (sortedBracket bracket).b.x
        (sortedBracket bracket).c.x "nfm::findBracket" with
    | error e => simp
    | ok u =>
      cases u
      simp only [not_true_eq_false, iff_false, not_exists]
      intro e
      split <;> (try split) <;> simp
  · simp [findBracket, hdim]

end nfm

/-! ## Lemmas on the validation in `brentMin` and `multiLineMin` -/

namespace nfm

theorem validateBracket_ok_iff (bracket : NoisyBracket) (name : String) :
    validateBracket bracket name = .ok () ↔
      (bracket.a.x < bracket.b.x ∧ bracket.b.x < bracket.c.x) ∧
        (bracket.a.f.gt bracket.b.f = true ∧ bracket.b.f.lt bracket.c.f = true) := by
  constructor
  · intro h
    simp only [validateBracket, validateBracketX] at h
    split_ifs at h with h1 h2 h3
    all_goals first
      | (simp at h; done)
      | (push_neg at h2
         simp only [isBracketed, Bool.not_eq_true', Bool.and_eq_false_iff, not_or,
           Bool.not_eq_false] at h3
         exact ⟨⟨h2.2, h2.1⟩, h3⟩)
  · intro h
    exact validateBracket_ok h.1 h.2

theorem brentMin_error_iff {σ : Type} (IGOLD2 : ℚ) (f1d : NoisyFunction σ)
    (bracket : NoisyBracket) (maxNIter : Int) (epsx epsf : ℚ) (s : σ) :
    (∃ e, brentMin IGOLD2 f1d bracket maxNIter epsx epsf s = .error e) ↔
      (f1d.ndim ≠ 1 ∨ validateBracket bracket "nfm::brentMin" ≠ .ok ()) := by
  by_cases hdim : f1d.ndim = 1
  · cases hv : validateBracket bracket "nfm::brentMin" with
    | error e => simp [brentMin, hdim, hv]
    | ok u => cases u; simp [brentMin, hdim, hv]
  · simp [brentMin, hdim]

theorem mlmBracket_valid {σ : Type} {IGOLD2 : ℚ} (h0 : 0 < IGOLD2) (h1 : IGOLD2 < 1)
    (mdf : NoisyFunction σ) (p0Pair : NoisyIOPair) (dir : List ℚ) (params : MLMParams) (s : σ)
    (hstep : 0 ≤ params.stepLeft ∧ 0 < params.stepRight) :
    validateBracketX (sortedBracket (mlmBracket IGOLD2 mdf p0Pair dir params s).1).a.x
      (sortedBracket (mlmBracket IGOLD2 mdf p0Pair dir params s).1).b.x
      (sortedBracket (mlmBracket IGOLD2 mdf p0Pair dir params s).1).c.x "nfm::findBracket"
      = .ok () := by
  rw [validateBracketX_sorted_ok_iff]
  have hac : -params.stepLeft < params.stepRight := by linarith [hstep.1, hstep.2]
  simp only [mlmBracket, min_eq_left (le_of_lt hac), max_eq_right (le_of_lt hac)]
  constructor <;> nlinarith

/-- Past its own two checks `multiLineMin` raises no error (`0 < IGOLD2 < 1`). -/
theorem multiLineMin_no_error {σ : Type} {IGOLD2 : ℚ} (h0 : 0 < IGOLD2) (h1 : IGOLD2 < 1)
    (STD_XTOL STD_FTOL : ℚ) (mdf : NoisyFunction σ) (p0Pair : NoisyIOPair) (dir : List ℚ)
    (params : MLMParams) (s : σ) (fuel : Nat)
    (hsize : mdf.ndim = (p0Pair.x.length : Int) ∧ p0Pair.x.length = dir.length)
    (hstep : 0 ≤ params.stepLeft ∧ 0 < params.stepRight) :
    (∀ e, multiLineMin IGOLD2 STD_XTOL STD_FTOL mdf p0Pair dir params s fuel ≠ some (.error e)) ∧
      ((params.maxNBracket + 1).toNat + 1 ≤ fuel →
        ∃ r, multiLineMin IGOLD2 STD_XTOL STD_FTOL mdf p0Pair dir params s fuel
          = some (.ok r)) := by
  have hs1 : ¬ (mdf.ndim ≠ (p0Pair.x.length : Int) ∨ p0Pair.x.length ≠ dir.length) := by
    simp [hsize.1, hsize.2]
  have hs2 : ¬ (params.stepLeft < 0 ∨ params.stepRight ≤ 0) := by
    simp only [not_or, not_lt, not_le]; exact hstep
  have hv := mlmBracket_valid h0 h1 mdf p0Pair dir params s hstep
  have hd : (FunProjection1D mdf p0Pair.x dir).ndim = 1 := rfl
  have key : ∀ o, findBracket IGOLD2 (FunProjection1D mdf p0Pair.x dir)
      (mlmBracket IGOLD2 mdf p0Pair dir params s).1 params.maxNBracket
      (mlmEps params.epsx STD_XTOL) (mlmBracket IGOLD2 mdf p0Pair dir params s).2 fuel = some o →
      ∃ r, o = .ok r ∧
        multiLineMin IGOLD2 STD_XTOL STD_FTOL mdf p0Pair dir params s fuel
          = some (.ok (if r.flag then
              (match brentMin IGOLD2 (FunProjection1D mdf p0Pair.x dir) r.bracket
                  params.maxNMinimize (mlmEps params.epsx STD_XTOL)
                  (mlmEps params.epsf STD_FTOL) r.state with
                | .error _ => mlmOldPosition mdf p0Pair r.state
                | .ok (min1D, s2) =>
                  if min1D.f.le p0Pair.f then
                    ({ x := getVecFromX p0Pair.x dir min1D.x, f := min1D.f }, s2)
                  else mlmOldPosition mdf p0Pair s2)
              else mlmOldPosition mdf p0Pair r.state)) := by
    intro o ho
    cases o with
    | error e =>
      exfalso
      have := (findBracket_error_iff IGOLD2 (FunProjection1D mdf p0Pair.x dir)
        (mlmBracket IGOLD2 mdf p0Pair dir params s).1 params.maxNBracket
        (mlmEps params.epsx STD_XTOL) (mlmBracket IGOLD2 mdf p0Pair dir params s).2 fuel).1
        ⟨e, ho⟩
      rcases this with h | h
      · exact h hd
      · exact h ((validateBracketX_sorted_ok_iff _ "nfm::findBracket").1 hv)
    | ok r =>
      refine ⟨r, rfl, ?_⟩
      simp only [multiLineMin, hs1, hs2, if_false, ho]
      by_cases hflag : r.flag = true
      · have hp := findBracket_post h0 h1 _ _ _ _ _ _ r ho
        have hb := hp.2.2.1 (by rw [hflag])
        simp only [isBracketed, Bool.and_eq_true] at hb
        have hok := brentMin_ok IGOLD2 (FunProjection1D mdf p0Pair.x dir) r.bracket
          params.maxNMinimize (mlmEps params.epsx STD_XTOL) (mlmEps params.epsf STD_FTOL)
          r.state hd (validateBracket_ok ⟨hp.1, hp.2.1⟩ hb)
        simp only [hflag, if_true, hok]
        split_ifs <;> rfl
      · simp only [hflag, if_false]
        rfl
  constructor
  · intro e he
    cases hfb : findBracket IGOLD2 (FunProjection1D mdf p0Pair.x dir)
      (mlmBracket IGOLD2 mdf p0Pair dir params s).1 params.maxNBracket
      (mlmEps params.epsx STD_XTOL) (mlmBracket IGOLD2 mdf p0Pair dir params s).2 fuel with
    | none => simp [multiLineMin, hs1, hs2, hfb] at he
    | some o =>
      obtain ⟨r, _, hm⟩ := key o hfb
      rw [hm] at he
      simp at he
  · intro hfuel
    obtain ⟨r, hr⟩ := findBracket_returns IGOLD2 (FunProjection1D mdf p0Pair.x dir)
      (mlmBracket IGOLD2 mdf p0Pair dir params s).1 params.maxNBracket
      (mlmEps params.epsx STD_XTOL) (mlmBracket IGOLD2 mdf p0Pair dir params s).2 fuel hd hv hfuel
    obtain ⟨r2, _, hm⟩ := key _ hr
    exact ⟨_, hm⟩

end nfm

/-! ## Claims on the errors raised by `findBracket`, `brentMin` and `multiLineMin` -/

namespace nfm

/-- C11, counterexample: the triple `0, 5, 1` has pairwise distinct positions,
yet `findBracket` answers with the invalid-argument error of
`validateBracketX`, because `sortedBracket` only exchanges the outer points. -/
theorem findBracket_rejects_distinct_triple :
    (unsortedBracket.a.x ≠ unsortedBracket.b.x ∧ unsortedBracket.b.x ≠ unsortedBracket.c.x ∧
        unsortedBracket.a.x ≠ unsortedBracket.c.x) ∧
      sortedBracket unsortedBracket = unsortedBracket ∧
      findBracket igold2 parabola unsortedBracket 50 (1 / 1000) () 60
        = some (.error "[nfm::findBracket->validateBracketX] Bracket violates (a.x < b.x < c.x).") := by
  decide!

/-- C11, amended: `findBracket` exchanges the two outer points when
`a.x > c.x` before it validates the ordering, so for a 1-D objective every
initial triple whose `b.x` lies strictly between the two outer positions, the
outer points given in either order, is accepted without an invalid-argument
error and a boolean is returned. -/
theorem findBracket_accepts_inner_between {σ : Type} (IGOLD2 : ℚ) (f1d : NoisyFunction σ)
    (bracket : NoisyBracket) (maxNIter : Int) (epsx : ℚ) (s : σ) (fuel : Nat)
    (hdim : f1d.ndim = 1)
    (hx : (bracket.a.x < bracket.b.x ∧ bracket.b.x < bracket.c.x) ∨
      (bracket.c.x < bracket.b.x ∧ bracket.b.x < bracket.a.x))
    (hfuel : (maxNIter + 1).toNat + 1 ≤ fuel) :
    ∃ r : FindBracketResult σ,
      findBracket IGOLD2 f1d bracket maxNIter epsx s fuel = some (.ok r) := by
  refine findBracket_returns IGOLD2 f1d bracket maxNIter epsx s fuel hdim ?_ hfuel
  rw [validateBracketX_sorted_ok_iff]
  rcases hx with h | h
  · rw [min_eq_left (le_of_lt (lt_trans h.1 h.2)), max_eq_right (le_of_lt (lt_trans h.1 h.2))]
    exact h
  · rw [min_eq_right (le_of_lt (lt_trans h.1 h.2)), max_eq_left (le_of_lt (lt_trans h.1 h.2))]
    exact h

/-- Witness of C11 (amended): the descending start `1000, 497.5, -5` of
`test/ut1` on the parabola. -/
theorem findBracket_accepts_inner_between_witness :
    ∃ r : FindBracketResult Unit,
      findBracket igold2 parabola (prepareBracket parabola 1000 (-5) ()).1 50 (1 / 1000) () 60
        = some (.ok r) :=
  findBracket_accepts_inner_between igold2 parabola (prepareBracket parabola 1000 (-5) ()).1 50
    (1 / 1000) () 60 rfl (Or.inr (by decide!)) (by decide)

/-- C12: `findBracket` raises an invalid-argument error if and only if the
objective is not 1-D, or the two outer positions coincide, or `b.x` does not
lie strictly between the two outer positions; in every other case it returns a
boolean (as soon as the fuel covers the cap). -/
theorem findBracket_error_iff_invalid {σ : Type} (IGOLD2 : ℚ) (f1d : NoisyFunction σ)
    (bracket : NoisyBracket) (maxNIter : Int) (epsx : ℚ) (s : σ) :
    (∀ fuel : Nat,
      (∃ e, findBracket IGOLD2 f1d bracket maxNIter epsx s fuel = some (.error e)) ↔
        (f1d.ndim ≠ 1 ∨ bracket.a.x = bracket.c.x ∨
          ¬ (min bracket.a.x bracket.c.x < bracket.b.x ∧
              bracket.b.x < max bracket.a.x bracket.c.x))) ∧
      (¬ (f1d.ndim ≠ 1 ∨ bracket.a.x = bracket.c.x ∨
            ¬ (min bracket.a.x bracket.c.x < bracket.b.x ∧
                bracket.b.x < max bracket.a.x bracket.c.x)) →
        ∀ fuel : Nat, (maxNIter + 1).toNat + 1 ≤ fuel →
          ∃ r : FindBracketResult σ,
            findBracket IGOLD2 f1d bracket maxNIter epsx s fuel = some (.ok r)) := by
  have hext : (f1d.ndim ≠ 1 ∨ bracket.a.x = bracket.c.x ∨
      ¬ (min bracket.a.x bracket.c.x < bracket.b.x ∧
          bracket.b.x < max bracket.a.x bracket.c.x)) ↔
      (f1d.ndim ≠ 1 ∨ ¬ (min bracket.a.x bracket.c.x < bracket.b.x ∧
          bracket.b.x < max bracket.a.x bracket.c.x)) := by
    constructor
    · rintro (h | h | h)
      · exact Or.inl h
      · refine Or.inr (fun hb => ?_)
        rw [h, min_self, max_self] at hb
        exact lt_irrefl _ (lt_trans hb.1 hb.2)
      · exact Or.inr h
    · rintro (h | h)
      · exact Or.inl h
      · exact Or.inr (Or.inr h)
  constructor
  · intro fuel
    rw [hext]
    exact findBracket_error_iff IGOLD2 f1d bracket maxNIter epsx s fuel
  · intro h fuel hfuel
    rw [hext] at h
    push_neg at h
    exact findBracket_returns IGOLD2 f1d bracket maxNIter epsx s fuel h.1
      ((validateBracketX_sorted_ok_iff bracket "nfm::findBracket").2 h.2) hfuel

/-- C13: `brentMin` raises an invalid-argument error if and only if the
objective is not 1-D, or the bracket as given violates `a.x < b.x < c.x`, or it
violates the bracketing condition `a.f > b.f` and `b.f < c.f`; for every other
input it returns a point, whatever `maxNIter`, `epsx` and `epsf` are, and
tolerances are used through `max 0`, so negative ones act as `0`. -/
theorem brentMin_error_iff_invalid {σ : Type} (IGOLD2 : ℚ) (f1d : NoisyFunction σ)
    (bracket : NoisyBracket) (maxNIter : Int) (epsx epsf : ℚ) (s : σ) :
    ((∃ e, brentMin IGOLD2 f1d bracket maxNIter epsx epsf s = .error e) ↔
        (f1d.ndim ≠ 1 ∨ ¬ (bracket.a.x < bracket.b.x ∧ bracket.b.x < bracket.c.x) ∨
          ¬ (bracket.a.f.gt bracket.b.f = true ∧ bracket.b.f.lt bracket.c.f = true))) ∧
      (¬ (f1d.ndim ≠ 1 ∨ ¬ (bracket.a.x < bracket.b.x ∧ bracket.b.x < bracket.c.x) ∨
            ¬ (bracket.a.f.gt bracket.b.f = true ∧ bracket.b.f.lt bracket.c.f = true)) →
        ∃ (r : NoisyIOPair1D) (s2 : σ),
          brentMin IGOLD2 f1d bracket maxNIter epsx epsf s = .ok (r, s2)) ∧
      brentMin IGOLD2 f1d bracket maxNIter epsx epsf s
        = brentMin IGOLD2 f1d bracket maxNIter (max 0 epsx) (max 0 epsf) s := by
  have hiff := brentMin_error_iff IGOLD2 f1d bracket maxNIter epsx epsf s
  simp only [ne_eq, validateBracket_ok_iff, not_and_or] at hiff
  simp only [ne_eq, not_and_or]
  refine ⟨hiff, ?_, ?_⟩
  · intro h
    cases hb : brentMin IGOLD2 f1d bracket maxNIter epsx epsf s with
    | error e => exact absurd (hiff.1 ⟨e, hb⟩) h
    | ok r => exact ⟨r.1, r.2, rfl⟩
  · simp only [brentMin, max_self, le_max_left, max_eq_right]

/-- C14: `multiLineMin` raises an invalid-argument error if and only if the
objective's dimension, the length of `p0.x` and the length of the direction
are not all equal, or `stepLeft < 0`, or `stepRight ≤ 0`; for every other input
no error is raised and, as soon as the fuel covers the bracketing cap, a point
is returned (with `0 < IGOLD2 < 1`). -/
theorem multiLineMin_error_iff_invalid {σ : Type} (IGOLD2 : ℚ) (h0 : 0 < IGOLD2)
    (h1 : IGOLD2 < 1) (STD_XTOL STD_FTOL : ℚ) (mdf : NoisyFunction σ) (p0Pair : NoisyIOPair)
    (dir : List ℚ) (params : MLMParams) (s : σ) :
    (∀ fuel : Nat,
      (∃ e, multiLineMin IGOLD2 STD_XTOL STD_FTOL mdf p0Pair dir params s fuel
          = some (.error e)) ↔
        ((mdf.ndim ≠ (p0Pair.x.length : Int) ∨ p0Pair.x.length ≠ dir.length) ∨
          params.stepLeft < 0 ∨ params.stepRight ≤ 0)) ∧
      (¬ ((mdf.ndim ≠ (p0Pair.x.length : Int) ∨ p0Pair.x.length ≠ dir.length) ∨
            params.stepLeft < 0 ∨ params.stepRight ≤ 0) →
        ∀ fuel : Nat, (params.maxNBracket + 1).toNat + 1 ≤ fuel →
          ∃ r, multiLineMin IGOLD2 STD_XTOL STD_FTOL mdf p0Pair dir params s fuel
            = some (.ok r)) := by
  constructor
  · intro fuel
    constructor
    · rintro ⟨e, he⟩
      by_contra hc
      push_neg at hc
      exact (multiLineMin_no_error h0 h1 STD_XTOL STD_FTOL mdf p0Pair dir params s fuel
        ⟨hc.1.1, hc.1.2⟩ ⟨hc.2.1, hc.2.2⟩).1 e he
    · rintro (h | h)
      · exact ⟨_, by simp only [multiLineMin, h, if_true]; rfl⟩
      · by_cases hs : mdf.ndim ≠ (p0Pair.x.length : Int) ∨ p0Pair.x.length ≠ dir.length
        · exact ⟨_, by simp only [multiLineMin, hs, if_true]; rfl⟩
        · exact ⟨_, by simp only [multiLineMin, hs, if_false, h, if_true]; rfl⟩
  · intro hc fuel hfuel
    push_neg at hc
    exact (multiLineMin_no_error h0 h1 STD_XTOL STD_FTOL mdf p0Pair dir params s fuel
      ⟨hc.1.1, hc.1.2⟩ ⟨hc.2.1, hc.2.2⟩).2 hfuel

/-- Witness of C14: the constant objective `5` from `([0], 0 ± 0)` along
`[1]` with `unitParams`. -/
theorem multiLineMin_error_iff_invalid_witness :
    (∀ fuel : Nat,
      (∃ e, multiLineMin igold2 (1 / 100000) (1 / 100000) constFive
          { x := [0], f := { val := 0, err := 0 } } [1] unitParams () fuel = some (.error e)) ↔
        ((constFive.ndim ≠ (([0] : List ℚ).length : Int) ∨
            ([0] : List ℚ).length ≠ ([1] : List ℚ).length) ∨
          unitParams.stepLeft < 0 ∨ unitParams.stepRight ≤ 0)) ∧
      (¬ ((constFive.ndim ≠ (([0] : List ℚ).length : Int) ∨
              ([0] : List ℚ).length ≠ ([1] : List ℚ).length) ∨
            unitParams.stepLeft < 0 ∨ unitParams.stepRight ≤ 0) →
        ∀ fuel : Nat, (unitParams.maxNBracket + 1).toNat + 1 ≤ fuel →
          ∃ r, multiLineMin igold2 (1 / 100000) (1 / 100000) constFive
            { x := [0], f := { val := 0, err := 0 } } [1] unitParams () fuel = some (.ok r)) :=
  multiLineMin_error_iff_invalid igold2 (by norm_num [igold2]) (by norm_num [igold2])
    (1 / 100000) (1 / 100000) constFive { x := [0], f := { val := 0, err := 0 } } [1]
    unitParams ()

/-- C20: `findBracket` does not depend on the order in which the two outer
points are given: called with `c, b, a` instead of `a, b, c`, from the same
state of the objective, it gives the same outcome (the same error, or the
same boolean, final bracket, counter and state). -/
theorem findBracket_outer_swap {σ : Type} (IGOLD2 : ℚ) (f1d : NoisyFunction σ)
    (bracket : NoisyBracket) (maxNIter : Int) (epsx : ℚ) (s : σ) (fuel : Nat) :
    findBracket IGOLD2 f1d { a := bracket.c, b := bracket.b, c := bracket.a } maxNIter epsx s fuel
      = findBracket IGOLD2 f1d bracket maxNIter epsx s fuel := by
  rcases lt_trichotomy bracket.a.x bracket.c.x with h | h | h
  · have e1 : sortedBracket { a := bracket.c, b := bracket.b, c := bracket.a } = bracket := by
      simp only [sortedBracket, gt_iff_lt, h, if_true]
    have e2 : sortedBracket bracket = bracket := by
      simp only [sortedBracket, gt_iff_lt, not_lt.2 (le_of_lt h), if_false]
    simp only [findBracket, e1, e2]
  · have e1 : sortedBracket { a := bracket.c, b := bracket.b, c := bracket.a }
        = { a := bracket.c, b := bracket.b, c := bracket.a } := by
      simp only [sortedBracket, gt_iff_lt, h, lt_irrefl, if_false]
    have e2 : sortedBracket bracket = bracket := by
      simp only [sortedBracket, gt_iff_lt, h, lt_irrefl, if_false]
    simp only [findBracket, e1, e2, validateBracketX, h, ge_iff_le, le_refl, if_true]
  · have e1 : sortedBracket { a := bracket.c, b := bracket.b, c := bracket.a }
        = { a := bracket.c, b := bracket.b, c := bracket.a } := by
      simp only [sortedBracket, gt_iff_lt, not_lt.2 (le_of_lt h), if_false]
    have e2 : sortedBracket bracket = { a := bracket.c, b := bracket.b, c := bracket.a } := by
      simp only [sortedBracket, gt_iff_lt, h, if_true]
    simp only [findBracket, e1, e2]

end nfm

/-! ## Lemmas on `findBracket` with a deterministic objective -/

namespace nfm

theorem evalF_det (G : ℚ → NoisyValue) (s : Unit) (x : ℚ) : evalF (det G) s x = (G x, s) := rfl

theorem sortedBracket_consistent {G : ℚ → NoisyValue} {br : NoisyBracket}
    (h : Consistent G br) : Consistent G (sortedBracket br) := by
  simp only [sortedBracket]
  split_ifs
  · exact ⟨h.2.2, h.2.1, h.1⟩
  · exact h

theorem widenLoop_consistent {σ : Type} (IGOLD2 : ℚ) (f1d : NoisyFunction σ) (G : ℚ → NoisyValue)
    (hdet : ∀ (s : σ) (x : ℚ), (evalF f1d s x).1 = G x) (maxNIter : Int) (epsx : ℚ) :
    ∀ (fuel : Nat) (br : NoisyBracket) (iter : Int) (s : σ) (ex : LoopExit) (br2 : NoisyBracket)
      (iter2 : Int) (s2 : σ), Consistent G br →
      widenLoop IGOLD2 f1d maxNIter epsx fuel br iter s = some (ex, br2, iter2, s2) →
      Consistent G br2 := by
  intro fuel
  induction fuel with
  | zero => intro br iter s ex br2 iter2 s2 _ h; simp [widenLoop] at h
  | succ n ih =>
    intro br iter s ex br2 iter2 s2 hc h
    simp only [widenLoop] at h
    split_ifs at h
    · simp only [Option.some.injEq, Prod.mk.injEq] at h
      obtain ⟨-, rfl, -, -⟩ := h
      exact hc
    · simp only [Option.some.injEq, Prod.mk.injEq] at h
      obtain ⟨-, rfl, -, -⟩ := h
      exact hc
    · simp only [Option.some.injEq, Prod.mk.injEq] at h
      obtain ⟨-, rfl, -, -⟩ := h
      exact hc
    · refine ih _ _ _ _ _ _ _ ?_ h
      exact ⟨hc.1, hc.2.2, hdet _ _⟩
    · simp only [Option.some.injEq, Prod.mk.injEq] at h
      obtain ⟨-, rfl, -, -⟩ := h
      exact hc

theorem mainLoop_consistent {σ : Type} (IGOLD2 : ℚ) (f1d : NoisyFunction σ) (G : ℚ → NoisyValue)
    (hdet : ∀ (s : σ) (x : ℚ), (evalF f1d s x).1 = G x) (maxNIter : Int) (epsx : ℚ) :
    ∀ (fuel : Nat) (br : NoisyBracket) (iter : Int) (s : σ) (ex : LoopExit) (br2 : NoisyBracket)
      (iter2 : Int) (s2 : σ), Consistent G br →
      mainLoop IGOLD2 f1d maxNIter epsx fuel br iter s = some (ex, br2, iter2, s2) →
      Consistent G br2 := by
  intro fuel
  induction fuel with
  | zero => intro br iter s ex br2 iter2 s2 _ h; simp [mainLoop] at h
  | succ n ih =>
    intro br iter s ex br2 iter2 s2 hc h
    simp only [mainLoop] at h
    split_ifs at h
    · simp only [Option.some.injEq, Prod.mk.injEq] at h
      obtain ⟨-, rfl, -, -⟩ := h
      exact hc
    · simp only [Option.some.injEq, Prod.mk.injEq] at h
      obtain ⟨-, rfl, -, -⟩ := h
      exact hc
    · simp only [Option.some.injEq, Prod.mk.injEq] at h
      obtain ⟨-, rfl, -, -⟩ := h
      exact hc
    · refine ih _ _ _ _ _ _ _ ?_ h
      exact ⟨hc.2.1, hc.2.2, hdet _ _⟩
    · refine ih _ _ _ _ _ _ _ ?_ h
      exact ⟨hc.1, hdet _ _, hc.2.1⟩
    · simp only [Option.some.injEq, Prod.mk.injEq] at h
      obtain ⟨-, rfl, -, -⟩ := h
      exact hc

/-- With a deterministic objective `G` and initial values taken from `G`, the
values of the bracket `findBracket` leaves are those of `G` at its positions. -/
theorem findBracket_consistent {σ : Type} (IGOLD2 : ℚ) (f1d : NoisyFunction σ)
    (G : ℚ → NoisyValue) (hdet : ∀ (s : σ) (x : ℚ), (evalF f1d s x).1 = G x)
    (bracket : NoisyBracket) (maxNIter : Int) (epsx : ℚ) (s : σ) (fuel : Nat)
    (r : FindBracketResult σ) (hc : Consistent G bracket)
    (h : findBracket IGOLD2 f1d bracket maxNIter epsx s fuel = some (.ok r)) :
    Consistent G r.bracket := by
  have hs := sortedBracket_consistent hc
  simp only [findBracket] at h
  split at h
  · simp at h
  · split at h
    · simp at h
    · split at h
      · simp at h
      · rename_i flag br iter s1 hw
        simp only [Option.some.injEq, Except.ok.injEq] at h
        subst h
        exact widenLoop_consistent IGOLD2 f1d G hdet maxNIter _ _ _ _ _ _ _ _ _ hs hw
      · rename_i br iter s1 hw
        have hp := widenLoop_consistent IGOLD2 f1d G hdet maxNIter _ _ _ _ _ _ _ _ _ hs hw
        split at h
        · simp at h
        · rename_i flag br2 iter2 s2 hm
          simp only [Option.some.injEq, Except.ok.injEq] at h
          subst h
          exact mainLoop_consistent IGOLD2 f1d G hdet maxNIter _ _ _ _ _ _ _ _ _ hp hm
        · rename_i br2 iter2 s2 hm
          simp only [Option.some.injEq, Except.ok.injEq] at h
          subst h
          exact mainLoop_consistent IGOLD2 f1d G hdet maxNIter _ _ _ _ _ _ _ _ _ hp hm

theorem NoisyValue.val_lt_of_gt {a b : NoisyValue} (h : a.gt b = true) : b.val < a.val := by
  simp only [NoisyValue.gt, Bool.and_eq_true, decide_eq_true_eq] at h
  exact h.2

theorem NoisyValue.val_lt_of_lt {a b : NoisyValue} (h : a.lt b = true) : a.val < b.val := by
  simp only [NoisyValue.lt, Bool.and_eq_true, decide_eq_true_eq] at h
  exact h.2

end nfm

/-! ## Claims on `findBracket` for the well function and the parabola -/

namespace nfm

theorem prepareBracket_det_consistent (G : ℚ → NoisyValue) (ax cx : ℚ) :
    Consistent G (prepareBracket (det G) ax cx ()).1 := ⟨rfl, rfl, rfl⟩

theorem wellCoarse_hasEquals {err : ℚ} (herr : 0 ≤ err) {br : NoisyBracket}
    (h : WellCoarse err br) : hasEquals br = true := by
  obtain ⟨ha, hb, _, hca, hcb, _⟩ := h
  have e1 : br.a.f = { val := 1, err := err } := by
    rw [hca]; simp only [wellValue]; rw [if_neg (by intro h; linarith [h.1])]
  have e2 : br.b.f = { val := 1, err := err } := by
    rw [hcb]; simp only [wellValue]
    rw [if_neg (by intro h; rcases hb with hb | hb <;> linarith [h.1, h.2])]
  simp only [hasEquals, e1, e2, NoisyValue.eq_self (a := { val := 1, err := err }) herr,
    Bool.true_or]

theorem widenLoop_wellCoarse {IGOLD2 : ℚ} (h0 : 0 < IGOLD2) (h1 : IGOLD2 < 1) {err : ℚ}
    (herr : 0 ≤ err) (maxNIter : Int) (epsx : ℚ) :
    ∀ (fuel : Nat) (br : NoisyBracket) (iter : Int) (s : Unit) (ex : LoopExit)
      (br2 : NoisyBracket) (iter2 : Int) (s2 : Unit), WellCoarse err br →
      widenLoop IGOLD2 (well err) maxNIter epsx fuel br iter s = some (ex, br2, iter2, s2) →
      ex = .ret false := by
  intro fuel
  induction fuel with
  | zero => intro br iter s ex br2 iter2 s2 _ h; simp [widenLoop] at h
  | succ n ih =>
    intro br iter s ex br2 iter2 s2 hq h
    have heq := wellCoarse_hasEquals herr hq
    simp only [widenLoop, heq, if_true, isBracketed_of_hasEquals heq, Bool.false_eq_true,
      if_false] at h
    split_ifs at h
    · simp only [Option.some.injEq, Prod.mk.injEq] at h
      exact h.1.symm
    · simp only [Option.some.injEq, Prod.mk.injEq] at h
      exact h.1.symm
    · refine ih _ _ _ _ _ _ _ ?_ h
      obtain ⟨ha, hb, hc, hca, hcb, hcc⟩ := hq
      have hac : br.a.x < br.c.x := by linarith
      have hgrow := scale_up_lt h0 h1 hac
      exact ⟨ha, Or.inr hc, by simp only; linarith, hca, hcc, rfl⟩

/-- On the well function started in the coarse situation, with the inner point
between the outer ones, `findBracket` returns `false`. -/
theorem findBracket_wellCoarse {IGOLD2 : ℚ} (h0 : 0 < IGOLD2) (h1 : IGOLD2 < 1) {err : ℚ}
    (herr : 0 ≤ err) (bracket : NoisyBracket) (maxNIter : Int) (epsx : ℚ) (fuel : Nat)
    (hq : WellCoarse err bracket) (hx : bracket.a.x < bracket.b.x ∧ bracket.b.x < bracket.c.x)
    (hfuel : (maxNIter + 1).toNat + 1 ≤ fuel) :
    ∃ r : FindBracketResult Unit,
      findBracket IGOLD2 (well err) bracket maxNIter epsx () fuel = some (.ok r) ∧
        r.flag = false := by
  have hs : sortedBracket bracket = bracket := by
    simp only [sortedBracket, gt_iff_lt]
    rw [if_neg (by linarith [hx.1, hx.2])]
  have hv : validateBracketX (sortedBracket bracket).a.x (sortedBracket bracket).b.x
      (sortedBracket bracket).c.x "nfm::findBracket" = .ok () := by
    rw [validateBracketX_sorted_ok_iff, min_eq_left (le_of_lt (lt_trans hx.1 hx.2)),
      max_eq_right (le_of_lt (lt_trans hx.1 hx.2))]
    exact hx
  obtain ⟨ex, br2, iter2, s2, hw, _⟩ :=
    widenLoop_terminates IGOLD2 (well err) maxNIter (max 0 epsx) fuel (sortedBracket bracket) 0 ()
      (by omega)
  have hex := widenLoop_wellCoarse h0 h1 herr maxNIter (max 0 epsx) fuel _ _ _ _ _ _ _
    (by rw [hs]; exact hq) hw
  subst hex
  have hd : (well err).ndim = 1 := rfl
  exact ⟨⟨false, br2, iter2, s2⟩, by
    simp only [findBracket, hd, ne_eq, not_true_eq_false, if_false, hv, hw], rfl⟩

/-- C15: for the well function (value `-1` on `(-1, 1)`, `+1` elsewhere, error
`0 ≤ err < 1`) and every initial bracket `a.x < b.x < c.x` with `a.x ≤ -1`,
`c.x ≥ 1`, `b.x` outside `(-1, 1)` and the function's values at its positions,
`findBracket` returns `false`, for every iteration cap and `epsx` (with
`0 < IGOLD2 < 1`). -/
theorem findBracket_well_coarse_fails (IGOLD2 : ℚ) (h0 : 0 < IGOLD2) (h1 : IGOLD2 < 1)
    (err : ℚ) (herr : 0 ≤ err ∧ err < 1) (bracket : NoisyBracket) (maxNIter : Int) (epsx : ℚ)
    (fuel : Nat) (hord : bracket.a.x < bracket.b.x ∧ bracket.b.x < bracket.c.x)
    (ha : bracket.a.x ≤ -1) (hc : 1 ≤ bracket.c.x)
    (hb : ¬ (-1 < bracket.b.x ∧ bracket.b.x < 1))
    (hval : Consistent (wellValue err) bracket)
    (hfuel : (maxNIter + 1).toNat + 1 ≤ fuel) :
    ∃ r : FindBracketResult Unit,
      findBracket IGOLD2 (well err) bracket maxNIter epsx () fuel = some (.ok r) ∧
        r.flag = false := by
  refine findBracket_wellCoarse h0 h1 herr.1 bracket maxNIter epsx fuel ⟨ha, ?_, hc, hval⟩ hord
    hfuel
  by_cases h : -1 < bracket.b.x
  · right
    by_contra h2
    exact hb ⟨h, not_le.1 h2⟩
  · left
    exact not_lt.1 h

/-- Witness of C15: the start interval `[-1000, 100]` of `test/ut1`. -/
theorem findBracket_well_coarse_fails_witness :
    ∃ r : FindBracketResult Unit,
      findBracket igold2 (well 0) wellCoarseBracket 50 (1 / 1000) () 60 = some (.ok r) ∧
        r.flag = false :=
  findBracket_well_coarse_fails igold2 (by norm_num [igold2]) (by norm_num [igold2]) 0
    (by decide!) wellCoarseBracket 50 (1 / 1000) 60 (by decide!) (by decide!) (by decide!)
    (by decide!) ⟨rfl, rfl, rfl⟩ (by decide)

/-- C16, the code at the input of the claim: on the well function with any
error `|err|`, started from `[-1.25, 5.5]` with the inner point `2.125`,
`findBracket` returns `false` for every iteration cap and every `epsx`. -/
theorem findBracket_well_test_interval_fails (err : ℚ) (maxNIter : Int) (epsx : ℚ) :
    (wellTestBracket |err|).a.x = -5 / 4 ∧ (wellTestBracket |err|).b.x = 17 / 8 ∧
      (wellTestBracket |err|).c.x = 11 / 2 ∧
      ∃ r : FindBracketResult Unit,
        findBracket igold2 (well |err|) (wellTestBracket |err|) maxNIter epsx ()
            ((maxNIter + 1).toNat + 1) = some (.ok r) ∧
          r.flag = false := by
  have hb : (wellTestBracket |err|).b.x = 17 / 8 := by
    simp only [wellTestBracket, prepareBracket]; norm_num
  refine ⟨rfl, hb, rfl, ?_⟩
  refine findBracket_wellCoarse (by norm_num [igold2]) (by norm_num [igold2]) (abs_nonneg err)
    (wellTestBracket |err|) maxNIter epsx _ ⟨?_, ?_, ?_, ?_⟩ ⟨?_, ?_⟩ (le_refl _)
  · show (-5 / 4 : ℚ) ≤ -1
    norm_num
  · right; rw [hb]; norm_num
  · show (1 : ℚ) ≤ 11 / 2
    norm_num
  · exact prepareBracket_det_consistent _ _ _
  · rw [hb]; show (-5 / 4 : ℚ) < 17 / 8; norm_num
  · rw [hb]; show (17 / 8 : ℚ) < 11 / 2; norm_num

/-- C17: for the well function with any constant error and every initial
bracket whose three values are the function's values at its positions,
whenever `findBracket` returns `true` the returned outer points lie outside
`(-1, 1)` and the inner point inside: `a.x ≤ -1 < b.x < 1 ≤ c.x` (with
`0 < IGOLD2 < 1`). -/
theorem findBracket_well_true_straddles (IGOLD2 : ℚ) (h0 : 0 < IGOLD2) (h1 : IGOLD2 < 1)
    (err : ℚ) (bracket : NoisyBracket) (maxNIter : Int) (epsx : ℚ) (fuel : Nat)
    (r : FindBracketResult Unit) (hval : Consistent (wellValue err) bracket)
    (h : findBracket IGOLD2 (well err) bracket maxNIter epsx () fuel = some (.ok r))
    (hflag : r.flag = true) :
    r.bracket.a.x ≤ -1 ∧ -1 < r.bracket.b.x ∧ r.bracket.b.x < 1 ∧ 1 ≤ r.bracket.c.x := by
  have hp := findBracket_post h0 h1 (well err) bracket maxNIter epsx () fuel r h
  have hc := findBracket_consistent IGOLD2 (well err) (wellValue err) (fun _ _ => rfl) bracket
    maxNIter epsx () fuel r hval h
  have hb := hp.2.2.1 (by rw [hflag])
  simp only [isBracketed, Bool.and_eq_true] at hb
  have g1 := NoisyValue.val_lt_of_gt hb.1
  have g2 := NoisyValue.val_lt_of_lt hb.2
  rw [hc.1, hc.2.1] at g1
  rw [hc.2.1, hc.2.2] at g2
  simp only [wellValue] at g1 g2
  have hbin : -1 < r.bracket.b.x ∧ r.bracket.b.x < 1 := by
    by_contra hn
    rw [if_neg hn] at g1
    split_ifs at g1 <;> linarith
  rw [if_pos hbin] at g1 g2
  have haout : ¬ (-1 < r.bracket.a.x ∧ r.bracket.a.x < 1) := by
    intro hn; rw [if_pos hn] at g1; linarith
  have hcout : ¬ (-1 < r.bracket.c.x ∧ r.bracket.c.x < 1) := by
    intro hn; rw [if_pos hn] at g2; linarith
  refine ⟨?_, hbin.1, hbin.2, ?_⟩
  · by_contra hn
    exact haout ⟨not_le.1 hn, lt_trans hp.1 hbin.2⟩
  · by_contra hn
    exact hcout ⟨lt_trans hbin.1 hp.2.1, not_le.1 hn⟩

/-- Witness of C17: the start interval `[-1.1, 3]` of `test/ut1`, which is
bracketing from the start. -/
theorem findBracket_well_true_straddles_witness :
    wellFineBracket.a.x ≤ -1 ∧ -1 < wellFineBracket.b.x ∧ wellFineBracket.b.x < 1 ∧
      1 ≤ wellFineBracket.c.x :=
  findBracket_well_true_straddles igold2 (by norm_num [igold2]) (by norm_num [igold2]) 0
    wellFineBracket 50 (1 / 1000) 60
    { flag := true, bracket := wellFineBracket, iter := 0, state := () }
    ⟨rfl, rfl, rfl⟩ (by decide!) rfl

/-- C18: for a deterministic objective whose value at `x` is `x^2` (whatever
its error) and every initial bracket whose three values are the objective's
values at its positions, whenever `findBracket` returns `true` the returned
bracket has `a.x < 0 < c.x`, `a.x ≠ b.x` and `c.x ≠ b.x` (with
`0 < IGOLD2 < 1`). -/
theorem findBracket_parabola_true_contains_min (IGOLD2 : ℚ) (h0 : 0 < IGOLD2) (h1 : IGOLD2 < 1)
    (G : ℚ → NoisyValue) (hG : ∀ x, (G x).val = x ^ 2) (bracket : NoisyBracket)
    (maxNIter : Int) (epsx : ℚ) (fuel : Nat) (r : FindBracketResult Unit)
    (hval : Consistent G bracket)
    (h : findBracket IGOLD2 (det G) bracket maxNIter epsx () fuel = some (.ok r))
    (hflag : r.flag = true) :
    r.bracket.a.x < 0 ∧ 0 < r.bracket.c.x ∧ r.bracket.a.x ≠ r.bracket.b.x ∧
      r.bracket.c.x ≠ r.bracket.b.x := by
  have hp := findBracket_post h0 h1 (det G) bracket maxNIter epsx () fuel r h
  have hc := findBracket_consistent IGOLD2 (det G) G (fun _ _ => rfl) bracket
    maxNIter epsx () fuel r hval h
  have hb := hp.2.2.1 (by rw [hflag])
  simp only [isBracketed, Bool.and_eq_true] at hb
  have g1 := NoisyValue.val_lt_of_gt hb.1
  have g2 := NoisyValue.val_lt_of_lt hb.2
  rw [hc.1, hc.2.1, hG, hG] at g1
  rw [hc.2.1, hc.2.2, hG, hG] at g2
  have hab := hp.1
  have hbc := hp.2.1
  refine ⟨?_, ?_, ne_of_lt hab, ne_of_gt hbc⟩
  · by_contra hn
    push_neg at hn
    nlinarith
  · by_contra hn
    push_neg at hn
    nlinarith

/-- Witness of C18: the exact parabola started from `[-1.5, 10]`. -/
theorem findBracket_parabola_true_contains_min_witness :
    parabolaResult.bracket.a.x < 0 ∧ 0 < parabolaResult.bracket.c.x ∧
      parabolaResult.bracket.a.x ≠ parabolaResult.bracket.b.x ∧
      parabolaResult.bracket.c.x ≠ parabolaResult.bracket.b.x :=
  findBracket_parabola_true_contains_min igold2 (by norm_num [igold2]) (by norm_num [igold2])
    (fun x => { val := x ^ 2, err := 0 }) (fun _ => rfl) parabolaBracket 50 (1 / 1000) 60
    parabolaResult ⟨by decide!, by decide!, by decide!⟩ (by decide!) rfl

end nfm

/-! ## Lemmas on raising the cap and the fuel and lowering the tolerance -/

namespace nfm

theorem checkBracketXTol_mono {br : NoisyBracket} {E E0 : ℚ} (hE : E ≤ E0)
    (h : checkBracketXTol br E0 = true) : checkBracketXTol br E = true := by
  simp only [checkBracketXTol, Bool.and_eq_true, decide_eq_true_eq, gt_iff_lt] at h ⊢
  exact ⟨lt_of_le_of_lt hE h.1, lt_of_le_of_lt hE h.2⟩

theorem widenLoop_mono {σ : Type} (IGOLD2 : ℚ) (f1d : NoisyFunction σ) {M0 M : Int} {E0 E : ℚ}
    (hM : M0 ≤ M) (hE : E ≤ E0) :
    ∀ (fuel fuel2 : Nat) (br : NoisyBracket) (iter : Int) (s : σ) (ex : LoopExit)
      (br2 : NoisyBracket) (iter2 : Int) (s2 : σ), fuel ≤ fuel2 → ex ≠ .ret false →
      widenLoop IGOLD2 f1d M0 E0 fuel br iter s = some (ex, br2, iter2, s2) →
      widenLoop IGOLD2 f1d M E fuel2 br iter s = some (ex, br2, iter2, s2) := by
  intro fuel
  induction fuel with
  | zero => intro fuel2 br iter s ex br2 iter2 s2 _ _ h; simp [widenLoop] at h
  | succ n ih =>
    intro fuel2 br iter s ex br2 iter2 s2 hf hex h
    obtain ⟨k, rfl⟩ : ∃ k, fuel2 = k + 1 := ⟨fuel2 - 1, by omega⟩
    simp only [widenLoop] at h ⊢
    split_ifs at h with c1 c2 c3 c4
    · simp only [Option.some.injEq, Prod.mk.injEq] at h
      exact absurd h.1.symm hex
    · simp only [Bool.not_eq_true', Bool.not_eq_false] at c2
      have hx := checkBracketXTol_mono hE c2
      simp only [c1, if_true, hx, Bool.not_true, Bool.false_eq_true, if_false, c3]
      exact h
    · simp only [Option.some.injEq, Prod.mk.injEq] at h
      exact absurd h.1.symm hex
    · simp only [Bool.not_eq_true', Bool.not_eq_false] at c2
      have hx := checkBracketXTol_mono hE c2
      have hc : ¬ (iter > M) := by omega
      simp only [c1, if_true, hx, Bool.not_true, Bool.false_eq_true, if_false, c3, hc]
      exact ih k _ _ _ _ _ _ _ (by omega) hex h
    · simp only [c1, Bool.false_eq_true, if_false]
      exact h

theorem mainLoop_mono {σ : Type} (IGOLD2 : ℚ) (f1d : NoisyFunction σ) {M0 M : Int} {E0 E : ℚ}
    (hM : M0 ≤ M) (hE : E ≤ E0) :
    ∀ (fuel fuel2 : Nat) (br : NoisyBracket) (iter : Int) (s : σ) (ex : LoopExit)
      (br2 : NoisyBracket) (iter2 : Int) (s2 : σ), fuel ≤ fuel2 → ex ≠ .ret false →
      mainLoop IGOLD2 f1d M0 E0 fuel br iter s = some (ex, br2, iter2, s2) →
      mainLoop IGOLD2 f1d M E fuel2 br iter s = some (ex, br2, iter2, s2) := by
  intro fuel
  induction fuel with
  | zero => intro fuel2 br iter s ex br2 iter2 s2 _ _ h; simp [mainLoop] at h
  | succ n ih =>
    intro fuel2 br iter s ex br2 iter2 s2 hf hex h
    obtain ⟨k, rfl⟩ : ∃ k, fuel2 = k + 1 := ⟨fuel2 - 1, by omega⟩
    simp only [mainLoop] at h ⊢
    split_ifs at h with c1 c2 c3 c4 c5
    · simp only [Option.some.injEq, Prod.mk.injEq] at h
      exact absurd h.1.symm hex
    · simp only [Bool.not_eq_true', Bool.not_eq_false] at c2
      have hx := checkBracketXTol_mono hE c2
      simp only [c1, if_true, hx, Bool.not_true, Bool.false_eq_true, if_false, c3]
      exact h
    · simp only [Option.some.injEq, Prod.mk.injEq] at h
      exact absurd h.1.symm hex
    · simp only [Bool.not_eq_true', Bool.not_eq_false] at c2
      have hx := checkBracketXTol_mono hE c2
      have hc : ¬ (iter > M) := by omega
      simp only [c1, if_true, hx, Bool.not_true, Bool.false_eq_true, if_false, c3, hc, c5]
      exact ih k _ _ _ _ _ _ _ (by omega) hex h
    · simp only [Bool.not_eq_true', Bool.not_eq_false] at c2
      have hx := checkBracketXTol_mono hE c2
      have hc : ¬ (iter > M) := by omega
      simp only [c1, if_true, hx, Bool.not_true, Bool.false_eq_true, if_false, c3, hc, c5]
      exact ih k _ _ _ _ _ _ _ (by omega) hex h
    · simp only [c1, if_false]
      exact h

/-- A successful run of `findBracket` stays the same run under a larger cap, a
smaller tolerance and more fuel. -/
theorem findBracket_true_mono {σ : Type} (IGOLD2 : ℚ) (f1d : NoisyFunction σ)
    (bracket : NoisyBracket) {M0 M : Int} {E0 E : ℚ} (s : σ) {fuel fuel2 : Nat}
    (r : FindBracketResult σ) (hM : M0 ≤ M) (hE : E ≤ E0) (hf : fuel ≤ fuel2)
    (h : findBracket IGOLD2 f1d bracket M0 E0 s fuel = some (.ok r)) (hflag : r.flag = true) :
    findBracket IGOLD2 f1d bracket M E s fuel2 = some (.ok r) := by
  have hE2 : max 0 E ≤ max 0 E0 := max_le_max (le_refl 0) hE
  simp only [findBracket] at h
  split at h
  · simp at h
  · rename_i hdim
    have hdim1 : f1d.ndim = 1 := not_not.1 hdim
    split at h
    · simp at h
    · rename_i hv
      split at h
      · simp at h
      · rename_i flag br iter s1 hw
        simp only [Option.some.injEq, Except.ok.injEq] at h
        subst h
        simp only at hflag
        subst hflag
        have hw2 := widenLoop_mono IGOLD2 f1d hM hE2 _ _ _ _ _ _ _ _ _ hf (by simp) hw
        simp only [findBracket, hdim1, ne_eq, not_true_eq_false, if_false, hv, hw2]
      · rename_i br iter s1 hw
        have hw2 := widenLoop_mono IGOLD2 f1d hM hE2 _ _ _ _ _ _ _ _ _ hf (by simp) hw
        split at h
        · simp at h
        · rename_i flag br2 iter2 s2 hm
          simp only [Option.some.injEq, Except.ok.injEq] at h
          subst h
          simp only at hflag
          subst hflag
          have hm2 := mainLoop_mono IGOLD2 f1d hM hE2 _ _ _ _ _ _ _ _ _ hf (by simp) hm
          simp only [findBracket, hdim1, ne_eq, not_true_eq_false, if_false, hv, hw2, hm2]
        · rename_i br2 iter2 s2 hm
          simp only [Option.some.injEq, Except.ok.injEq] at h
          subst h
          simp at hflag

theorem flag_true_of_map {σ : Type} {o : Option (Except String (FindBracketResult σ))}
    (h : o.map (fun x => x.toOption.map (fun r => r.flag)) = some (some true)) :
    ∃ r : FindBracketResult σ, o = some (.ok r) ∧ r.flag = true := by
  cases o with
  | none => simp at h
  | some x =>
    cases x with
    | error e => simp [Except.toOption] at h
    | ok r =>
      simp only [Option.map_some', Except.toOption, Option.some.injEq] at h
      exact ⟨r, rfl, h⟩

end nfm

/-! ## Claim on the parabola runs of the unit test -/

namespace nfm

/-- C19: for the exact parabola `x^2`, `findBracket` returns `true` when
started from each of the intervals `[-1000, 1]`, `[-5, 1000]` (given as
`1000`, then `-5`) and `[-1.5, 10]`, each with its midpoint as inner point, for
every iteration cap `maxNIter ≥ 5` and every tolerance `0 ≤ epsx < 1` (any fuel
from `7` on gives the result). -/
theorem findBracket_parabola_tests_succeed (maxNIter : Int) (epsx : ℚ) (fuel : Nat)
    (hcap : 5 ≤ maxNIter) (_hpos : 0 ≤ epsx) (heps : epsx < 1) (hfuel : 7 ≤ fuel) :
    (∃ r : FindBracketResult Unit,
        findBracket igold2 parabola (prepareBracket parabola (-1000) 1 ()).1 maxNIter epsx ()
          fuel = some (.ok r) ∧ r.flag = true) ∧
      (∃ r : FindBracketResult Unit,
        findBracket igold2 parabola (prepareBracket parabola 1000 (-5) ()).1 maxNIter epsx ()
          fuel = some (.ok r) ∧ r.flag = true) ∧
      (∃ r : FindBracketResult Unit,
        findBracket igold2 parabola (prepareBracket parabola (-3 / 2) 10 ()).1 maxNIter epsx ()
          fuel = some (.ok r) ∧ r.flag = true) := by
  refine ⟨?_, ?_, ?_⟩
  · obtain ⟨r, hr, hflag⟩ := flag_true_of_map
      (o := findBracket igold2 parabola (prepareBracket parabola (-1000) 1 ()).1 5 1 () 7)
      (by decide!)
    exact ⟨r, findBracket_true_mono igold2 parabola _ () r hcap (le_of_lt heps) hfuel hr hflag,
      hflag⟩
  · obtain ⟨r, hr, hflag⟩ := flag_true_of_map
      (o := findBracket igold2 parabola (prepareBracket parabola 1000 (-5) ()).1 5 1 () 7)
      (by decide!)
    exact ⟨r, findBracket_true_mono igold2 parabola _ () r hcap (le_of_lt heps) hfuel hr hflag,
      hflag⟩
  · obtain ⟨r, hr, hflag⟩ := flag_true_of_map
      (o := findBracket igold2 parabola (prepareBracket parabola (-3 / 2) 10 ()).1 5 1 () 7)
      (by decide!)
    exact ⟨r, findBracket_true_mono igold2 parabola _ () r hcap (le_of_lt heps) hfuel hr hflag,
      hflag⟩

/-- Witness of C19: the cap `50` and the tolerance `1/1000`. -/
theorem findBracket_parabola_tests_succeed_witness :
    (∃ r : FindBracketResult Unit,
        findBracket igold2 parabola (prepareBracket parabola (-1000) 1 ()).1 50 (1 / 1000) ()
          60 = some (.ok r) ∧ r.flag = true) ∧
      (∃ r : FindBracketResult Unit,
        findBracket igold2 parabola (prepareBracket parabola 1000 (-5) ()).1 50 (1 / 1000) ()
          60 = some (.ok r) ∧ r.flag = true) ∧
      (∃ r : FindBracketResult Unit,
        findBracket igold2 parabola (prepareBracket parabola (-3 / 2) 10 ()).1 50 (1 / 1000) ()
          60 = some (.ok r) ∧ r.flag = true) :=
  findBracket_parabola_tests_succeed 50 (1 / 1000) 60 (by decide) (by decide!) (by decide!)
    (by decide)

end nfm

/-! ## Claims on the noisy-value algebra and on the loops of `brentMin` and `findBracket` -/

namespace nfm

theorem NoisyValue.minDist_comm {a b : NoisyValue} (ha : 0 ≤ a.err) (hb : 0 ≤ b.err) :
    a.minDist b = b.minDist a := by
  simp only [NoisyValue.minDist, NoisyValue.eq_comm b a]
  by_cases h : a.eq b = true
  · simp only [h, if_true]
  · simp only [h, Bool.false_eq_true, if_false]
    simp only [NoisyValue.eq, NoisyValue.getLBound, NoisyValue.getUBound, Bool.and_eq_true,
      decide_eq_true_eq, not_and_or, not_le] at h
    simp only [NoisyValue.getLBound, NoisyValue.getUBound]
    rcases h with h | h
    · rw [if_pos (by linarith), if_neg (by linarith)]
    · rw [if_neg (by linarith), if_pos (by linarith)]

/-- C25: for noisy values with non-negative errors, noisy equality is reflexive
and symmetric, and `minDist` is symmetric with `minDist(a, a) = 0`. -/
theorem NoisyValue.eq_refl_symm_minDist (a b : NoisyValue) (ha : 0 ≤ a.err) (hb : 0 ≤ b.err) :
    a.eq a = true ∧ (a.eq b = true ↔ b.eq a = true) ∧ a.minDist b = b.minDist a ∧
      a.minDist a = 0 := by
  refine ⟨NoisyValue.eq_self ha, by rw [NoisyValue.eq_comm], NoisyValue.minDist_comm ha hb, ?_⟩
  simp only [NoisyValue.minDist, NoisyValue.eq_self ha, if_true]

/-- Witness of C25: the values `1 ± 1/2` and `3 ± 1`. -/
theorem NoisyValue.eq_refl_symm_minDist_witness :
    NoisyValue.eq { val := 1, err := 1 / 2 } { val := 1, err := 1 / 2 } = true ∧
      (NoisyValue.eq { val := 1, err := 1 / 2 } { val := 3, err := 1 } = true ↔
        NoisyValue.eq { val := 3, err := 1 } { val := 1, err := 1 / 2 } = true) ∧
      NoisyValue.minDist { val := 1, err := 1 / 2 } { val := 3, err := 1 }
        = NoisyValue.minDist { val := 3, err := 1 } { val := 1, err := 1 / 2 } ∧
      NoisyValue.minDist { val := 1, err := 1 / 2 } { val := 1, err := 1 / 2 } = 0 :=
  NoisyValue.eq_refl_symm_minDist { val := 1, err := 1 / 2 } { val := 3, err := 1 } (by decide!)
    (by decide!)

theorem brentUpdate_best (st : BrentState) (d e : ℚ) (u : NoisyIOPair1D) :
    (brentUpdate st d e u).bracket.b
      = if u.f.getUBound ≤ st.bracket.b.f.getUBound then u else st.bracket.b := by
  simp only [brentUpdate]
  split_ifs <;> rfl

theorem brentStep_ubound {σ : Type} (IGOLD2 : ℚ) (f1d : NoisyFunction σ) (st : BrentState)
    (s : σ) :
    (brentStep IGOLD2 f1d st s).1.bracket.b.f.getUBound ≤ st.bracket.b.f.getUBound := by
  simp only [brentStep, brentUpdate_best]
  split_ifs with h
  · exact h
  · exact le_refl _

theorem brentLoop_ubound {σ : Type} (IGOLD2 : ℚ) (f1d : NoisyFunction σ) (epsx epsf : ℚ) :
    ∀ (n : Nat) (st : BrentState) (s : σ),
      (brentLoop IGOLD2 f1d epsx epsf n st s).1.bracket.b.f.getUBound
        ≤ st.bracket.b.f.getUBound := by
  intro n
  induction n with
  | zero => intro st s; exact le_refl _
  | succ k ih =>
    intro st s
    simp only [brentLoop]
    split_ifs
    · exact le_refl _
    · exact le_refl _
    · exact le_trans (ih _ _) (brentStep_ubound IGOLD2 f1d st s)

theorem brentStep_best {σ : Type} (IGOLD2 : ℚ) (f1d : NoisyFunction σ) (st : BrentState)
    (s : σ) :
    (brentStep IGOLD2 f1d st s).1.bracket.b
        = (if (evalF f1d s (brentTrial IGOLD2 st).2.2).1.getUBound ≤ st.bracket.b.f.getUBound
            then { x := (brentTrial IGOLD2 st).2.2,
                   f := (evalF f1d s (brentTrial IGOLD2 st).2.2).1 }
            else st.bracket.b) ∧
      (brentStep IGOLD2 f1d st s).2 = (evalF f1d s (brentTrial IGOLD2 st).2.2).2 := by
  simp only [brentStep, brentUpdate_best, and_self]

/-- C26: in an iteration of the loop of `brentMin` the trial point `u` is the
position chosen by the step rule together with the objective evaluated there,
and the best point `m` after the iteration is `u` exactly when
`upperBound(u.f) ≤ upperBound(m.f)`, and the old `m` otherwise; so the upper
bound of the best point's value does not increase in an iteration, and at the
end of the loop it is at most the upper bound of the middle value `b.f` of the
input bracket. -/
theorem brentMin_best_ubound_antitone {σ : Type} (IGOLD2 : ℚ) (f1d : NoisyFunction σ)
    (bracket : NoisyBracket) (maxNIter : Int) (epsx epsf : ℚ) (s : σ) :
    (∀ (st : BrentState) (t : σ),
      (brentStep IGOLD2 f1d st t).1.bracket.b
          = (if (evalF f1d t (brentTrial IGOLD2 st).2.2).1.getUBound
                ≤ st.bracket.b.f.getUBound
              then { x := (brentTrial IGOLD2 st).2.2,
                     f := (evalF f1d t (brentTrial IGOLD2 st).2.2).1 }
              else st.bracket.b) ∧
        (brentStep IGOLD2 f1d st t).2 = (evalF f1d t (brentTrial IGOLD2 st).2.2).2) ∧
      (∀ (st : BrentState) (d e : ℚ) (u : NoisyIOPair1D),
        (brentUpdate st d e u).bracket.b
          = if u.f.getUBound ≤ st.bracket.b.f.getUBound then u else st.bracket.b) ∧
      (∀ (st : BrentState) (t : σ),
        (brentStep IGOLD2 f1d st t).1.bracket.b.f.getUBound ≤ st.bracket.b.f.getUBound) ∧
      (∀ (n : Nat) (st : BrentState) (t : σ),
        brentLoop IGOLD2 f1d (max 0 epsx) (max 0 epsf) (n + 1) st t
          = if checkBracketXTol st.bracket (max 0 epsx) = true ∧
                checkBracketFTol st.bracket (max 0 epsf) = true
              then brentLoop IGOLD2 f1d (max 0 epsx) (max 0 epsf) n
                (brentStep IGOLD2 f1d st t).1 (brentStep IGOLD2 f1d st t).2
              else (st, t)) ∧
      (brentLoop IGOLD2 f1d (max 0 epsx) (max 0 epsf) maxNIter.toNat
          (brentInit IGOLD2 f1d bracket s).1 (brentInit IGOLD2 f1d bracket s).2).1.bracket.b.f.getUBound
        ≤ bracket.b.f.getUBound := by
  refine ⟨brentStep_best IGOLD2 f1d, brentUpdate_best, brentStep_ubound IGOLD2 f1d, ?_,
    brentLoop_ubound IGOLD2 f1d (max 0 epsx) (max 0 epsf) maxNIter.toNat _ _⟩
  intro n st t
  simp only [brentLoop]
  cases hx : checkBracketXTol st.bracket (max 0 epsx) <;>
    cases hf : checkBracketFTol st.bracket (max 0 epsf) <;> simp

theorem widenLoop_never_true {σ : Type} (IGOLD2 : ℚ) (f1d : NoisyFunction σ) (maxNIter : Int)
    (epsx : ℚ) :
    ∀ (fuel : Nat) (br : NoisyBracket) (iter : Int) (s : σ) (ex : LoopExit) (br2 : NoisyBracket)
      (iter2 : Int) (s2 : σ),
      widenLoop IGOLD2 f1d maxNIter epsx fuel br iter s = some (ex, br2, iter2, s2) →
      ex ≠ .ret true := by
  intro fuel
  induction fuel with
  | zero => intro br iter s ex br2 iter2 s2 h; simp [widenLoop] at h
  | succ n ih =>
    intro br iter s ex br2 iter2 s2 h
    simp only [widenLoop] at h
    split_ifs at h with c1 c2 c3 c4
    · simp only [Option.some.injEq, Prod.mk.injEq] at h
      rw [← h.1]; simp
    · rw [isBracketed_of_hasEquals c1] at c3
      exact absurd c3 (by simp)
    · simp only [Option.some.injEq, Prod.mk.injEq] at h
      rw [← h.1]; simp
    · exact ih _ _ _ _ _ _ _ h
    · simp only [Option.some.injEq, Prod.mk.injEq] at h
      rw [← h.1]; simp

/-- C27: the early-success return of the widening loop of `findBracket` is
never taken (the loop never ends with `return true`); so whenever
`findBracket` returns `true`, the widening loop has ended by its loop
condition and the `true` comes from the main loop, and whenever the widening
loop ends with a `return`, `findBracket` returns `false`. -/
theorem findBracket_true_only_from_mainLoop {σ : Type} (IGOLD2 : ℚ) (f1d : NoisyFunction σ)
    (bracket : NoisyBracket) (maxNIter : Int) (epsx : ℚ) (s : σ) (fuel : Nat)
    (r : FindBracketResult σ)
    (h : findBracket IGOLD2 f1d bracket maxNIter epsx s fuel = some (.ok r)) :
    (∀ (n : Nat) (br : NoisyBracket) (iter : Int) (t : σ) (ex : LoopExit) (br2 : NoisyBracket)
        (iter2 : Int) (t2 : σ),
        widenLoop IGOLD2 f1d maxNIter (max 0 epsx) n br iter t = some (ex, br2, iter2, t2) →
        ex ≠ .ret true) ∧
      (r.flag = true →
        ∃ (br : NoisyBracket) (iter : Int) (s1 : σ),
          widenLoop IGOLD2 f1d maxNIter (max 0 epsx) fuel (sortedBracket bracket) 0 s
              = some (.done, br, iter, s1) ∧
            mainLoop IGOLD2 f1d maxNIter (max 0 epsx) fuel br iter s1
              = some (.ret true, r.bracket, r.iter, r.state)) ∧
      ((∃ (flag : Bool) (br : NoisyBracket) (iter : Int) (s1 : σ),
          widenLoop IGOLD2 f1d maxNIter (max 0 epsx) fuel (sortedBracket bracket) 0 s
            = some (.ret flag, br, iter, s1)) →
        r.flag = false) := by
  refine ⟨widenLoop_never_true IGOLD2 f1d maxNIter (max 0 epsx), ?_, ?_⟩
  · intro hflag
    simp only [findBracket] at h
    split at h
    · simp at h
    · split at h
      · simp at h
      · split at h
        · simp at h
        · rename_i flag br iter s1 hw
          simp only [Option.some.injEq, Except.ok.injEq] at h
          subst h
          simp only at hflag
          subst hflag
          exact absurd rfl (widenLoop_never_true IGOLD2 f1d maxNIter _ _ _ _ _ _ _ _ _ hw)
        · rename_i br iter s1 hw
          refine ⟨br, iter, s1, hw, ?_⟩
          split at h
          · simp at h
          · rename_i flag br2 iter2 s2 hm
            simp only [Option.some.injEq, Except.ok.injEq] at h
            subst h
            simp only at hflag
            subst hflag
            exact hm
          · simp only [Option.some.injEq, Except.ok.injEq] at h
            subst h
            simp at hflag
  · rintro ⟨flag, br, iter, s1, hw⟩
    have hne := widenLoop_never_true IGOLD2 f1d maxNIter _ _ _ _ _ _ _ _ _ hw
    have hf : flag = false := by
      cases flag with
      | true => exact absurd rfl hne
      | false => rfl
    subst hf
    simp only [findBracket] at h
    split at h
    · simp at h
    · split at h
      · simp at h
      · rw [hw] at h
        simp only [Option.some.injEq, Except.ok.injEq] at h
        rw [← h]

/-- Witness of C27: the constant objective, where the widening loop ends at
the cap. -/
theorem findBracket_true_only_from_mainLoop_witness :
    (∃ (flag : Bool) (br : NoisyBracket) (iter : Int) (s1 : Unit),
        widenLoop igold2 flat 3 (max 0 0) 10 (sortedBracket flatBracket) 0 ()
          = some (.ret flag, br, iter, s1)) ∧
      flatResult.flag = false :=
  ⟨⟨false, flatResult.bracket, 5, (), by decide!⟩,
    (findBracket_true_only_from_mainLoop igold2 flat flatBracket 3 0 () 10 flatResult
      (by decide!)).2.2 ⟨false, flatResult.bracket, 5, (), by decide!⟩⟩

end nfm

/-! ## Claim on the early end of the loop of `brentMin` -/

namespace nfm

theorem brentStep_counted {σ : Type} (IGOLD2 : ℚ) (f1d : NoisyFunction σ) (st : BrentState)
    (s : σ) (k : Nat) : (brentStep IGOLD2 (counted f1d) st (s, k)).2.2 = k + 1 := rfl

/-- The Brent loop on the counted objective: the evaluations made do not
exceed the iterations allowed, and if they stay below, the loop has ended at
one of its two `break` tests. -/
theorem brentLoop_counted {σ : Type} (IGOLD2 : ℚ) (f1d : NoisyFunction σ) (epsx epsf : ℚ) :
    ∀ (n : Nat) (st : BrentState) (s : σ) (k : Nat),
      (brentLoop IGOLD2 (counted f1d) epsx epsf n st (s, k)).2.2 ≤ k + n ∧
        ((brentLoop IGOLD2 (counted f1d) epsx epsf n st (s, k)).2.2 < k + n →
          checkBracketXTol (brentLoop IGOLD2 (counted f1d) epsx epsf n st (s, k)).1.bracket epsx
              = false ∨
            checkBracketFTol (brentLoop IGOLD2 (counted f1d) epsx epsf n st (s, k)).1.bracket epsf
              = false) := by
  intro n
  induction n with
  | zero => intro st s k; exact ⟨le_refl _, fun h => absurd h (lt_irrefl _)⟩
  | succ m ih =>
    intro st s k
    simp only [brentLoop]
    split_ifs with c1 c2
    · simp only [Bool.not_eq_true', Bool.not_eq_false] at c1
      exact ⟨by simp only; omega, fun _ => Or.inl c1⟩
    · simp only [Bool.not_eq_true', Bool.not_eq_false] at c2
      exact ⟨by simp only; omega, fun _ => Or.inr c2⟩
    · have h := ih (brentStep IGOLD2 (counted f1d) st (s, k)).1
        (brentStep IGOLD2 (counted f1d) st (s, k)).2.1 (k + 1)
      have e : (brentStep IGOLD2 (counted f1d) st (s, k)).2
          = ((brentStep IGOLD2 (counted f1d) st (s, k)).2.1, k + 1) := rfl
      rw [e]
      exact ⟨by omega, fun hlt => h.2 (by omega)⟩

theorem checkBracketXTol_false_iff (br : NoisyBracket) (epsx : ℚ) :
    checkBracketXTol br epsx = false ↔ (|br.c.x - br.b.x| ≤ epsx ∨ |br.b.x - br.a.x| ≤ epsx) := by
  simp only [checkBracketXTol, Bool.and_eq_false_iff, decide_eq_false_iff_not, gt_iff_lt, not_lt]

theorem checkBracketFTol_false_iff (br : NoisyBracket) (epsf : ℚ) :
    checkBracketFTol br epsf = false ↔
      (br.a.f.minDist br.b.f ≤ epsf ∨ br.c.f.minDist br.b.f ≤ epsf) := by
  simp only [checkBracketFTol, Bool.and_eq_false_iff, decide_eq_false_iff_not, gt_iff_lt, not_lt]

/-- C21, counterexample: on the bracket `0, 1, 2` of `skewParabola` with
`epsx = 0` and `epsf = 5`, the position gaps are above `epsx` and the left
value gap `minDist(lb.f, m.f) = 10` is above `epsf`, yet the loop of `brentMin`
ends at once although `100` iterations are allowed: the state it returns is
the initial one. -/
theorem brentLoop_ends_with_one_gap_above :
    validateBracket skewBracket "nfm::brentMin" = .ok () ∧
      checkBracketXTol skewBracket 0 = true ∧
      skewBracket.a.f.minDist skewBracket.b.f > 5 ∧
      brentLoop igold2 skewParabola (max 0 0) (max 0 5) (Int.toNat 100)
          (brentInit igold2 skewParabola skewBracket ()).1
          (brentInit igold2 skewParabola skewBracket ()).2
        = brentInit igold2 skewParabola skewBracket () := by
  decide!

/-- C21, amended: the loop of `brentMin` ends before the iteration cap only
when a neighbouring position gap of the bracket is not above `epsx` or at
least one of the two value gaps, `minDist(lb.f, m.f)` and `minDist(ub.f, m.f)`,
is not above `epsf`; while both position gaps are above `epsx` and both value
gaps are above `epsf` (and iterations are left) the loop keeps iterating. The
evaluations of the counted objective count the iterations made. -/
theorem brentLoop_early_end_iff_tolerance {σ : Type} (IGOLD2 : ℚ) (f1d : NoisyFunction σ)
    (epsx epsf : ℚ) (n : Nat) (st : BrentState) (s : σ) :
    ((brentLoop IGOLD2 (counted f1d) epsx epsf n st (s, 0)).2.2 ≤ n ∧
        ((brentLoop IGOLD2 (counted f1d) epsx epsf n st (s, 0)).2.2 < n →
          ((|(brentLoop IGOLD2 (counted f1d) epsx epsf n st (s, 0)).1.bracket.c.x
                - (brentLoop IGOLD2 (counted f1d) epsx epsf n st (s, 0)).1.bracket.b.x| ≤ epsx ∨
              |(brentLoop IGOLD2 (counted f1d) epsx epsf n st (s, 0)).1.bracket.b.x
                - (brentLoop IGOLD2 (counted f1d) epsx epsf n st (s, 0)).1.bracket.a.x| ≤ epsx) ∨
            ((brentLoop IGOLD2 (counted f1d) epsx epsf n st (s, 0)).1.bracket.a.f.minDist
                (brentLoop IGOLD2 (counted f1d) epsx epsf n st (s, 0)).1.bracket.b.f ≤ epsf ∨
              (brentLoop IGOLD2 (counted f1d) epsx epsf n st (s, 0)).1.bracket.c.f.minDist
                (brentLoop IGOLD2 (counted f1d) epsx epsf n st (s, 0)).1.bracket.b.f ≤ epsf)))) ∧
      (|st.bracket.c.x - st.bracket.b.x| > epsx ∧ |st.bracket.b.x - st.bracket.a.x| > epsx →
        st.bracket.a.f.minDist st.bracket.b.f > epsf ∧
          st.bracket.c.f.minDist st.bracket.b.f > epsf →
        brentLoop IGOLD2 f1d epsx epsf (n + 1) st s
          = brentLoop IGOLD2 f1d epsx epsf n (brentStep IGOLD2 f1d st s).1
              (brentStep IGOLD2 f1d st s).2) := by
  constructor
  · have h := brentLoop_counted IGOLD2 f1d epsx epsf n st s 0
    rw [Nat.zero_add] at h
    refine ⟨h.1, fun hlt => ?_⟩
    rcases h.2 hlt with hx | hf
    · exact Or.inl ((checkBracketXTol_false_iff _ _).1 hx)
    · exact Or.inr ((checkBracketFTol_false_iff _ _).1 hf)
  · intro hx hf
    have c1 : checkBracketXTol st.bracket epsx = true := by
      simp only [checkBracketXTol, Bool.and_eq_true, decide_eq_true_eq]; exact hx
    have c2 : checkBracketFTol st.bracket epsf = true := by
      simp only [checkBracketFTol, Bool.and_eq_true, decide_eq_true_eq]; exact hf
    simp only [brentLoop, c1, c2, Bool.not_true, Bool.false_eq_true, if_false]

/-- Witness of C21 (amended): the first iteration on the bracket `0, 1, 2` of
the shifted parabola, with both tolerances `0`. -/
theorem brentLoop_early_end_iff_tolerance_witness :
    brentLoop igold2 shiftedParabola 0 0 (2 + 1)
        (brentInit igold2 shiftedParabola unitBracket ()).1 ()
      = brentLoop igold2 shiftedParabola 0 0 2
          (brentStep igold2 shiftedParabola (brentInit igold2 shiftedParabola unitBracket ()).1
            ()).1
          (brentStep igold2 shiftedParabola (brentInit igold2 shiftedParabola unitBracket ()).1
            ()).2 :=
  (brentLoop_early_end_iff_tolerance igold2 shiftedParabola 0 0 2
    (brentInit igold2 shiftedParabola unitBracket ()).1 ()).2 (by decide!) (by decide!)

end nfm

/-! ## Claims on `Adam::findMin` -/

namespace Adam

open nfm

theorem zipWith_second_moment_nonneg {beta2 : ℚ} (h0 : 0 ≤ beta2) (h1 : beta2 < 1) :
    ∀ (v grad : List ℚ), (∀ vi ∈ v, 0 ≤ vi) →
      ∀ wi ∈ List.zipWith (fun vi gi => beta2 * vi + (1 - beta2) * gi * gi) v grad, 0 ≤ wi := by
  intro v
  induction v with
  | nil => intro grad _ wi hw; simp at hw
  | cons a v ih =>
    intro grad hv wi hw
    cases grad with
    | nil => simp at hw
    | cons g grad =>
      simp only [List.zipWith_cons_cons, List.mem_cons] at hw
      rcases hw with rfl | hw
      · have ha := hv a (by simp)
        have hg : 0 ≤ (1 - beta2) * g * g := by
          have : 0 ≤ g * g := mul_self_nonneg g
          nlinarith
        nlinarith
      · exact ih grad (fun vi hvi => hv vi (by simp [hvi])) wi hw

theorem adamUpdate_v_nonneg (sqrt : ℚ → ℚ) (p : AdamParams)
    (hb2 : 0 ≤ p.beta2 ∧ p.beta2 < 1) (m v x grad : List ℚ) (hv : ∀ vi ∈ v, 0 ≤ vi) :
    ∀ wi ∈ (adamUpdate sqrt p m v x grad).2.1, 0 ≤ wi :=
  zipWith_second_moment_nonneg hb2.1 hb2.2 v grad hv

theorem adamRun_v_nonneg (sqrt : ℚ → ℚ) (p : AdamParams) (hb2 : 0 ≤ p.beta2 ∧ p.beta2 < 1) :
    ∀ (gs : List (List ℚ)) (mvx : List ℚ × List ℚ × List ℚ), (∀ vi ∈ mvx.2.1, 0 ≤ vi) →
      ∀ wi ∈ (adamRun sqrt p mvx gs).2.1, 0 ≤ wi := by
  intro gs
  induction gs with
  | nil => intro mvx h; exact h
  | cons g gs ih =>
    intro mvx h
    simp only [adamRun, List.foldl_cons]
    exact ih _ (adamUpdate_v_nonneg sqrt p hb2 _ _ _ _ h)

theorem findMinLoop_v_nonneg {σ : Type} (sqrt : ℚ → ℚ) (p : AdamParams)
    (hb2 : 0 ≤ p.beta2 ∧ p.beta2 < 1) (gf : GradientFunction σ) :
    ∀ (fuel : Nat) (st st2 : AdamState σ), (∀ vi ∈ st.v, 0 ≤ vi) →
      findMinLoop sqrt p gf fuel st = some st2 → ∀ wi ∈ st2.v, 0 ≤ wi := by
  intro fuel
  induction fuel with
  | zero => intro st st2 _ h; simp [findMinLoop] at h
  | succ n ih =>
    intro st st2 hv h
    simp only [findMinLoop] at h
    split_ifs at h
    · refine ih _ _ ?_ h
      exact adamUpdate_v_nonneg sqrt p hb2 st.m st.v st.x (gf.grad st.s st.x).1 hv
    · simp only [Option.some.injEq] at h
      rw [← h]
      exact hv

/-- C24: in `Adam::findMin`, for every gradient sequence, every `epsilon > 0`
and decay rates `beta1`, `beta2` in `[0, 1)`, every division is by a strictly
positive number: the factor `1 - beta1` is positive, every entry of the second
moment `v` is `≥ 0` after any sequence of updates (and in the state in which
`findMin` ends), and so the divisor `sqrt(v_i) + epsilon` is at least
`epsilon`. The square root is any function that is non-negative on
non-negative arguments. -/
theorem findMin_divisors_positive (sqrt : ℚ → ℚ) (hsqrt : ∀ y : ℚ, 0 ≤ y → 0 ≤ sqrt y)
    (p : AdamParams) (heps : 0 < p.epsilon) (hb1 : 0 ≤ p.beta1 ∧ p.beta1 < 1)
    (hb2 : 0 ≤ p.beta2 ∧ p.beta2 < 1) :
    0 < 1 - p.beta1 ∧
      (∀ (n : Nat) (x0 : List ℚ) (gs : List (List ℚ)),
        ∀ vi ∈ (adamRun sqrt p (List.replicate n 0, List.replicate n 0, x0) gs).2.1,
          0 ≤ vi ∧ p.epsilon ≤ sqrt vi + p.epsilon ∧ 0 < sqrt vi + p.epsilon) ∧
      (∀ (σ : Type) (gf : GradientFunction σ) (x0 : List ℚ) (s : σ) (fuel : Nat)
          (st : AdamState σ), findMin sqrt p gf x0 s fuel = some st →
        ∀ vi ∈ st.v, 0 ≤ vi ∧ p.epsilon ≤ sqrt vi + p.epsilon ∧ 0 < sqrt vi + p.epsilon) := by
  have hrep : ∀ n : Nat, ∀ vi ∈ List.replicate n (0 : ℚ), 0 ≤ vi := by
    intro n vi hvi
    rw [List.eq_of_mem_replicate hvi]
  have hdiv : ∀ vi : ℚ, 0 ≤ vi →
      0 ≤ vi ∧ p.epsilon ≤ sqrt vi + p.epsilon ∧ 0 < sqrt vi + p.epsilon := by
    intro vi hvi
    have := hsqrt vi hvi
    exact ⟨hvi, by linarith, by linarith⟩
  refine ⟨by linarith [hb1.2], ?_, ?_⟩
  · intro n x0 gs vi hvi
    exact hdiv vi (adamRun_v_nonneg sqrt p hb2 gs _ (hrep n) vi hvi)
  · intro σ gf x0 s fuel st h vi hvi
    exact hdiv vi (findMinLoop_v_nonneg sqrt p hb2 gf fuel _ st (hrep gf.ndim) h vi hvi)

/-- Witness of C24: the integer square root of the rationals and the
parameters `alpha = 1`, `beta1 = 1/2`, `beta2 = 0`, `epsilon = 1`. -/
theorem findMin_divisors_positive_witness :
    0 < 1 - (halfParams false).beta1 ∧
      (∀ (n : Nat) (x0 : List ℚ) (gs : List (List ℚ)),
        ∀ vi ∈ (adamRun Rat.sqrt (halfParams false)
            (List.replicate n 0, List.replicate n 0, x0) gs).2.1,
          0 ≤ vi ∧ (halfParams false).epsilon ≤ Rat.sqrt vi + (halfParams false).epsilon ∧
            0 < Rat.sqrt vi + (halfParams false).epsilon) ∧
      (∀ (σ : Type) (gf : GradientFunction σ) (x0 : List ℚ) (s : σ) (fuel : Nat)
          (st : AdamState σ), findMin Rat.sqrt (halfParams false) gf x0 s fuel = some st →
        ∀ vi ∈ st.v, 0 ≤ vi ∧ (halfParams false).epsilon ≤ Rat.sqrt vi + (halfParams false).epsilon ∧
          0 < Rat.sqrt vi + (halfParams false).epsilon) :=
  findMin_divisors_positive Rat.sqrt (fun y _ => Rat.sqrt_nonneg y) (halfParams false)
    (by decide!) (by decide!) (by decide!)

/-- C22, the code at a failing input: for the linear objective with gradient
`1`, `alpha = 1`, `beta1 = 1/2`, `beta2 = 0`, `epsilon = 1`, started at `0`,
`findMin` makes two iterations and ends at `-5/4`; its second update, from
`x = -1/2`, `m = 1/2`, `v = 1`, uses the same factor as the first and gives
`-5/4`, where the bias-corrected update of iteration `2` gives `-1`; only at
iteration `1` do the two coincide. -/
theorem findMin_second_update_not_bias_corrected :
    (findMin Rat.sqrt (halfParams false) slope [0] () 10).map (fun st => (st.x, st.m, st.v, st.step))
        = some ([-5 / 4], [3 / 4], [1], 2) ∧
      adamUpdate Rat.sqrt (halfParams false) [0] [0] [0] [1] = ([1 / 2], [1], [-1 / 2]) ∧
      biasCorrectedUpdate Rat.sqrt (halfParams false) 1 [0] [0] [0] [1]
        = ([1 / 2], [1], [-1 / 2]) ∧
      adamUpdate Rat.sqrt (halfParams false) [1 / 2] [1] [-1 / 2] [1]
        = ([3 / 4], [1], [-5 / 4]) ∧
      biasCorrectedUpdate Rat.sqrt (halfParams false) 2 [1 / 2] [1] [-1 / 2] [1]
        = ([3 / 4], [1], [-1]) := by
  decide!

end Adam
